import Mathlib

/-!
Verification of the playbook execution engine (lib/ansible/playbook/init).

The orchestrator (class PlayBook) is embedded shallowly: every method of the
source file becomes a Lean function on an explicit state record.  External
collaborators (Inventory, Stats ledger, Runner, Poller, template engine,
callbacks) are not part of the source tree; they are modelled from the spec,
as marked on each definition.  Runner and Poller results are supplied by an
environment (one RunnerOutcome per Runner construction, consumed in call
order), which makes every run a total computable function of its inputs.
Callback invocations are recorded in an event trace; in addition, each Runner
dispatch records a ghost `dispatch` event carrying the working host set and
snapshots of the inventory restriction stack and of the failures/dark sets at
dispatch time, so that trace invariants can be stated.
-/

namespace Ansible

abbrev Host := String

/-- A fact/variable map (Python dict with string keys), as an ordered
association list. -/
abbrev Vars := List (String × String)

/-- Host patterns are resolved by the external inventory.  Modelled from the
spec: a pattern denotes the predicate of hosts matching it. -/
abbrev Pattern := Host → Bool

/-- Template engine.  Modelled from the spec: `template(text, vars) → text`,
used to expand handler names before matching. -/
abbrev Tmpl := String → Vars → String

deriving instance DecidableEq for Except

/-- Per-host module result (open Python dict; absent keys are `none`).
Shape from the spec's result record:
contacted results may carry changed / failed / rc / msg / ansible_facts. -/
structure HResult where
  changed : Option Bool
  failed : Option Nat
  rc : Option Int
  msg : Option String
  ansible_facts : Option Vars
deriving DecidableEq

/-- Truthiness of the `failed` field, as Python evaluates
`'failed' in value and value['failed']`. -/
def HResult.is_failed (r : HResult) : Bool :=
  match r.failed with
  | some n => n != 0
  | none => false

/-- Runner result shape: `{contacted: host → result, dark: host → reason}`. -/
structure Results where
  contacted : List (Host × HResult)
  dark : List (Host × HResult)
deriving DecidableEq

/-- Python dict lookup on a string-keyed association list. -/
def getA {α : Type} : List (String × α) → String → Option α
  | [], _ => none
  | (k', v') :: rest, k => if k' = k then some v' else getA rest k

/-- Python dict assignment `d[k] = v`: replace the binding if present,
append it otherwise. -/
def setA {α : Type} : List (String × α) → String → α → List (String × α)
  | [], k, v => [(k, v)]
  | (k', v') :: rest, k, v =>
    if k' = k then (k, v) :: rest else (k', v') :: setA rest k v

/-- Keys of an association list. -/
def keysA {α : Type} (l : List (String × α)) : List String := l.map Prod.fst

/-- Per-host counters reported by `summarize`.  Modelled from the spec:
summary derives from the Stats ledger (ok, changed, failed, unreachable
counts). -/
structure Summary where
  ok : Nat
  changed : Nat
  unreachable : Nat
  failures : Nat
  skipped : Nat
deriving DecidableEq

/-- Stats ledger.  Modelled from the spec: per-host counters plus the two
membership sets `failures` and `dark` used by the orchestrator to exclude
hosts from subsequent work, and `processed` = every host that has appeared
in any task result. -/
structure Stats where
  processed : List Host
  failures : List Host
  dark : List Host
  tally : List (Host × Summary)
deriving DecidableEq

def emptySummary : Summary := ⟨0, 0, 0, 0, 0⟩

/-- Insert a host into a membership set (kept duplicate-free). -/
def addHost (l : List Host) (h : Host) : List Host :=
  if h ∈ l then l else l ++ [h]

/-- Update the per-host counter record. -/
def bumpTally (t : List (Host × Summary)) (h : Host) (f : Summary → Summary) :
    List (Host × Summary) :=
  setA t h (f ((getA t h).getD emptySummary))

/-- Fold of the `contacted` part of a result into the ledger.  Modelled from
the spec: contacted hosts become processed; a truthy `failed` enters the
`failures` set; otherwise in a non-setup fold `ok` is counted, plus
`changed` when the result reports a change; a setup fold counts neither ok
nor changed. -/
def computeC (setup : Bool) : List (Host × HResult) → Stats → Stats
  | [], s => s
  | (h, res) :: rest, s =>
    let s := { s with processed := addHost s.processed h }
    let s :=
      if res.is_failed then
        { s with failures := addHost s.failures h,
                 tally := (bumpTally s.tally h
                   (fun u => { u with failures := u.failures + 1 })) }
      else if setup then s
      else
        let s := { s with tally := (bumpTally s.tally h
                   (fun u => { u with ok := u.ok + 1 })) }
        if res.changed.getD false then
          { s with tally := (bumpTally s.tally h
                   (fun u => { u with changed := u.changed + 1 })) }
        else s
    computeC setup rest s

/-- Fold of the `dark` part of a result into the ledger.  Modelled from the
spec: dark hosts become processed, enter the `dark` set and count as
unreachable. -/
def computeD : List (Host × HResult) → Stats → Stats
  | [], s => s
  | (h, _res) :: rest, s =>
    computeD rest
      { s with processed := addHost s.processed h,
               dark := addHost s.dark h,
               tally := (bumpTally s.tally h
                 (fun u => { u with unreachable := u.unreachable + 1 })) }

/-- `stats.compute(results, setup)`.  Modelled from the spec: folds results
into counters and updates the `failures`/`dark` sets. -/
def Stats.compute (s : Stats) (r : Results) (setup : Bool) : Stats :=
  computeD r.dark (computeC setup r.contacted s)

/-- `stats.summarize(host)`.  Modelled from the spec. -/
def Stats.summarize (s : Stats) (h : Host) : Summary :=
  (getA s.tally h).getD emptySummary

/-- Inventory view with its restriction stack.  Modelled from the spec:
`list_hosts` enumerates hosts matching a pattern, limited by the stacked
restrictions (LIFO). -/
structure Inventory where
  hosts : List Host
  restrictions : List (List Host)
deriving DecidableEq

/-- `inventory.list_hosts(pattern?)`.  Modelled from the spec: hosts matching
the pattern (all hosts when none is given) that pass every stacked
restriction. -/
def Inventory.list_hosts (inv : Inventory) (p : Option Pattern) : List Host :=
  (inv.hosts.filter (fun h =>
      match p with
      | some pat => pat h
      | none => true)).filter
    (fun h => inv.restrictions.all (fun r => decide (h ∈ r)))

/-- `inventory.restrict_to(hosts)`: push a restriction. -/
def Inventory.restrict_to (inv : Inventory) (hs : List Host) : Inventory :=
  { inv with restrictions := hs :: inv.restrictions }

/-- `inventory.lift_restriction()`: pop the top restriction. -/
def Inventory.lift_restriction (inv : Inventory) : Inventory :=
  { inv with restrictions := inv.restrictions.tail }

/-- Lifecycle events observed during a run: the playbook/runner callbacks,
plus a ghost `dispatch` record emitted at each Runner construction carrying
the restriction stack, the inventory listing, the working host set and
snapshots of the failures/dark sets at that moment.  The `on_setup_primary`
event records the setup cache visible when the primary setup step starts. -/
inductive Event where
  | on_start : Event
  | on_play_start : String → Event
  | on_setup_primary : List (Host × Vars) → Event
  | on_setup_secondary : Event
  | on_task_start : String → Bool → Event
  | on_notify : Host → String → Event
  | on_failed : Host → HResult → Event
  | dispatch : List (List Host) → List Host → List Host → List Host →
      List Host → Event
deriving DecidableEq

/-- Errors the orchestrator can raise: the Python KeyError from the fact
merge, and AnsibleError for configuration errors. -/
inductive PBError where
  | keyError : Host → PBError
  | ansibleError : String → PBError
deriving DecidableEq

/-- Orchestrator state: the setup cache, the stats ledger, the inventory
with its restriction stack, the recorded events, and the count of Runner
constructions so far (index into the environment). -/
structure PBState where
  setup_cache : List (Host × Vars)
  stats : Stats
  inventory : Inventory
  events : List Event
  calls : Nat
deriving DecidableEq

def PBState.emit (st : PBState) (e : Event) : PBState :=
  { st with events := st.events ++ [e] }

/-- What the external Runner/Poller return for one Runner construction:
the synchronous result, the initial async result, the poll result and the
hosts still unreported when the poller's wait returns.  Modelled from the
spec contracts of Runner and Poller. -/
structure RunnerOutcome where
  run_result : Results
  async_initial : Results
  poll_result : Results
  hosts_to_poll : List Host
deriving DecidableEq

def RunnerOutcome.empty : RunnerOutcome := ⟨⟨[], []⟩, ⟨[], []⟩, ⟨[], []⟩, []⟩

/-- Environment supplying one outcome per Runner construction, in order. -/
structure Env where
  outcomes : List RunnerOutcome
deriving DecidableEq

def Env.get (e : Env) (i : Nat) : RunnerOutcome :=
  e.outcomes.getD i RunnerOutcome.empty

/-- Task / handler record (handlers share the task shape plus
`notified_by`). -/
structure Task where
  name : String
  module_name : String
  module_args : String
  module_vars : Vars
  only_if : String
  notify : List String
  async_seconds : Nat
  async_poll_interval : Nat
  notified_by : List Host
deriving DecidableEq

/-- One play: pattern, vars, vars_files, tasks and handlers. -/
structure Play where
  name : String
  hosts : Pattern
  vars : Vars
  vars_files : List String
  tasks : List Task
  handlers : List Task

/-- The reason dict synthesized for hosts that never reported completion:
`{'failed': 1, 'rc': None, 'msg': 'timed out'}`. -/
def timedOutReason : HResult := ⟨none, some 1, none, some "timed out", none⟩

/-- Loop body of `_async_poll`: mark every host still listed in
`poller.hosts_to_poll` as failed (fire `on_failed`, overwrite its contacted
entry with the timeout reason). -/
def async_poll_loop : List Host → PBState → Results → PBState × Results
  | [], st, results => (st, results)
  | host :: rest, st, results =>
    async_poll_loop rest (st.emit (.on_failed host timedOutReason))
      { results with contacted := setA results.contacted host timedOutReason }

/-- `_async_poll`: take the poller's wait result, then synthesize timeout
failures for hosts still listed as to-poll. -/
def async_poll (st : PBState) (o : RunnerOutcome) : PBState × Results :=
  async_poll_loop o.hosts_to_poll st o.poll_result

/-- `_run_task_internal`: compute the working host set (current inventory
listing minus stats.failures minus stats.dark), push it as a restriction,
construct a Runner (consuming one environment outcome and recording the
ghost dispatch event), run synchronously or asynchronously (folding the
initial async results and polling when requested), then lift the
restriction. -/
def run_task_internal (env : Env) (_play : Play) (task : Task) (st : PBState) :
    PBState × Results :=
  let listing := st.inventory.list_hosts none
  let hosts := listing.filter
    (fun h => decide (h ∉ st.stats.failures) && decide (h ∉ st.stats.dark))
  let st := { st with inventory := st.inventory.restrict_to hosts }
  let o := env.get st.calls
  let st := { st with calls := st.calls + 1 }
  let st := st.emit
    (.dispatch st.inventory.restrictions listing hosts st.stats.failures
      st.stats.dark)
  let pr :=
    if task.async_seconds = 0 then (st, o.run_result)
    else
      let results := o.async_initial
      let st := { st with stats := st.stats.compute results false }
      if task.async_poll_interval > 0 then async_poll st o
      else (st, results)
  ({ pr.1 with inventory := pr.1.inventory.lift_restriction }, pr.2)

/-- Fact merge over the facts of one contacted host:
`SETUP_CACHE[host][k] = v` for each pair; indexing a host absent from the
cache raises KeyError. -/
def mergeEntries (cache : List (Host × Vars)) (host : Host) :
    Vars → Except PBError (List (Host × Vars))
  | [] => .ok cache
  | (k, v) :: rest =>
    if host ∈ keysA cache then
      mergeEntries (setA cache host (setA ((getA cache host).getD []) k v))
        host rest
    else .error (.keyError host)

/-- Fact merge of `_run_task`: for each contacted host whose result carries
`ansible_facts`, write each fact into the host's existing cache entry. -/
def merge_facts (cache : List (Host × Vars)) :
    List (Host × HResult) → Except PBError (List (Host × Vars))
  | [] => .ok cache
  | (host, result) :: rest =>
    match result.ansible_facts with
    | none => merge_facts cache rest
    | some facts =>
      match mergeEntries cache host facts with
      | .ok cache2 => merge_facts cache2 rest
      | .error e => .error e

/-- Scan of `_flag_handler`: walk the handler list in order; on each
handler whose name equals the templated name, fire `on_notify` and append
the host to its `notified_by`; report whether any handler matched. -/
def flag_handler_scan (handler_name : String) (host : Host) :
    List Task → PBState → PBState × List Task × Bool
  | [], st => (st, [], false)
  | x :: rest, st =>
    if x.name = handler_name then
      let st := st.emit (.on_notify host x.name)
      let r := flag_handler_scan handler_name host rest st
      (r.1, { x with notified_by := x.notified_by ++ [host] } :: r.2.1, true)
    else
      let r := flag_handler_scan handler_name host rest st
      (r.1, x :: r.2.1, r.2.2)

/-- `_flag_handler`: flag every handler with the given name; if none is
defined, raise the configuration error. -/
def flag_handler (handlers : List Task) (handler_name : String) (host : Host)
    (st : PBState) : PBState × Except PBError (List Task) :=
  let r := flag_handler_scan handler_name host handlers st
  if r.2.2 then (r.1, .ok r.2.1)
  else
    (r.1, .error (.ansibleError
      ("change handler (" ++ handler_name ++ ") is not defined")))

/-- Inner loop of the notify processing: flag each handler name of
`task.notify` (templated against the task's module_vars) for one host. -/
def notify_names (tmpl : Tmpl) (mvars : Vars) (host : Host) :
    List String → List Task → PBState → PBState × Except PBError (List Task)
  | [], handlers, st => (st, .ok handlers)
  | n :: rest, handlers, st =>
    let r := flag_handler handlers (tmpl n mvars) host st
    match r.2 with
    | .ok handlers2 => notify_names tmpl mvars host rest handlers2 r.1
    | .error e => (r.1, .error e)

/-- Outer loop of the notify processing: for each contacted host whose
result reports a change, flag every notified handler name. -/
def notify_hosts (tmpl : Tmpl) (mvars : Vars) (names : List String) :
    List (Host × HResult) → List Task → PBState →
      PBState × Except PBError (List Task)
  | [], handlers, st => (st, .ok handlers)
  | (host, res) :: rest, handlers, st =>
    if res.changed.getD false then
      let r := notify_names tmpl mvars host names handlers st
      match r.2 with
      | .ok handlers2 => notify_hosts tmpl mvars names rest handlers2 r.1
      | .error e => (r.1, .error e)
    else notify_hosts tmpl mvars names rest handlers st

/-- `_run_task`: fire `on_task_start`, dispatch via `_run_task_internal`,
merge returned facts into the setup cache, fold the results into the stats
ledger, then process notifications.  (The source's `if results is None`
branch is unreachable here: the embedded Runner contract always returns a
result record.)  The handler list is threaded explicitly, mirroring the
in-place mutation of the play's handler objects. -/
def run_task (env : Env) (tmpl : Tmpl) (play : Play) (task : Task) (ih : Bool)
    (handlers : List Task) (st : PBState) :
    PBState × Except PBError (List Task) :=
  let st := st.emit (.on_task_start task.name ih)
  let pr := run_task_internal env play task st
  let st := pr.1
  let results := pr.2
  match merge_facts st.setup_cache results.contacted with
  | .error e => (st, .error e)
  | .ok cache2 =>
    let st := { st with setup_cache := cache2,
                        stats := st.stats.compute results false }
    if task.notify.length > 0 then
      notify_hosts tmpl task.module_vars task.notify results.contacted
        handlers st
    else (st, .ok handlers)

/-- `_do_setup_step`: fire the primary/secondary setup callback, compute the
working host set (pattern listing minus failures minus dark), push the
restriction, run the setup module (one environment outcome), fold the result
as a setup fold, lift the restriction, and — on the primary pass only —
replace each contacted host's cache entry with its returned facts.
(`play.update_vars_files` on the secondary pass only rewrites the play's
variables, which feed the external Runner; it touches no orchestrator
state.) -/
def apply_facts : List (Host × HResult) → List (Host × Vars) →
    List (Host × Vars)
  | [], c => c
  | (h, r) :: rest, c =>
    apply_facts rest
      (match r.ansible_facts with
       | some facts => setA c h facts
       | none => c)

def do_setup_step (env : Env) (play : Play) (vars_files : Option (List String))
    (st : PBState) : PBState × Results :=
  let st :=
    match vars_files with
    | some _ => st.emit .on_setup_secondary
    | none => st.emit (.on_setup_primary st.setup_cache)
  let listing := st.inventory.list_hosts (some play.hosts)
  let host_list := listing.filter
    (fun h => !(decide (h ∈ st.stats.failures) || decide (h ∈ st.stats.dark)))
  let st := { st with inventory := st.inventory.restrict_to host_list }
  let o := env.get st.calls
  let st := { st with calls := st.calls + 1 }
  let st := st.emit
    (.dispatch st.inventory.restrictions listing host_list st.stats.failures
      st.stats.dark)
  let setup_results := o.run_result
  let st := { st with stats := st.stats.compute setup_results true }
  let st := { st with inventory := st.inventory.lift_restriction }
  let st :=
    match vars_files with
    | none =>
      { st with setup_cache := (apply_facts setup_results.contacted
          st.setup_cache) }
    | some _ => st
  (st, setup_results)

/-- Task loop of `_run_play`. -/
def run_tasks (env : Env) (tmpl : Tmpl) (play : Play) :
    List Task → List Task → PBState → PBState × Except PBError (List Task)
  | [], handlers, st => (st, .ok handlers)
  | t :: rest, handlers, st =>
    let r := run_task env tmpl play t false handlers st
    match r.2 with
    | .ok handlers2 => run_tasks env tmpl play rest handlers2 r.1
    | .error e => (r.1, .error e)

/-- Handler loop of `_run_play`, iterated by index over the (live, mutable)
handler list: a handler whose `notified_by` is non-empty at visit time is
run with the inventory restricted to `notified_by`, and the restriction is
lifted after the run. -/
def run_handlers_aux (env : Env) (tmpl : Tmpl) (play : Play) :
    Nat → Nat → List Task → PBState → PBState × Except PBError (List Task)
  | 0, _, handlers, st => (st, .ok handlers)
  | fuel + 1, i, handlers, st =>
    match handlers[i]? with
    | none => (st, .ok handlers)
    | some handler =>
      if handler.notified_by.length > 0 then
        let st :=
          { st with inventory := st.inventory.restrict_to handler.notified_by }
        let r := run_task env tmpl play handler true handlers st
        match r.2 with
        | .ok handlers2 =>
          let st :=
            { r.1 with inventory := r.1.inventory.lift_restriction }
          run_handlers_aux env tmpl play fuel (i + 1) handlers2 st
        | .error e => (r.1, .error e)
      else run_handlers_aux env tmpl play fuel (i + 1) handlers st

def run_handlers (env : Env) (tmpl : Tmpl) (play : Play)
    (handlers : List Task) (st : PBState) :
    PBState × Except PBError (List Task) :=
  run_handlers_aux env tmpl play handlers.length 0 handlers st

/-- `_run_play`: fire `on_play_start`, run the primary setup step, run the
secondary setup step when vars_files is non-empty, run all tasks, then run
the notified handlers. -/
def run_play (env : Env) (tmpl : Tmpl) (play : Play) (st : PBState) :
    PBState × Except PBError Unit :=
  let st := st.emit (.on_play_start play.name)
  let st := (do_setup_step env play none st).1
  let st :=
    if play.vars_files.length > 0 then
      (do_setup_step env play (some play.vars_files) st).1
    else st
  let r := run_tasks env tmpl play play.tasks play.handlers st
  match r.2 with
  | .error e => (r.1, .error e)
  | .ok handlers1 =>
    let r2 := run_handlers env tmpl play handlers1 r.1
    match r2.2 with
    | .error e => (r2.1, .error e)
    | .ok _ => (r2.1, .ok ())

/-- Play loop of `run`: reset the setup cache before each play. -/
def run_plays (env : Env) (tmpl : Tmpl) :
    List Play → PBState → PBState × Except PBError Unit
  | [], st => (st, .ok ())
  | p :: rest, st =>
    let st := { st with setup_cache := [] }
    let r := run_play env tmpl p st
    match r.2 with
    | .ok _ => run_plays env tmpl rest r.1
    | .error e => (r.1, .error e)

/-- `run()`: fire `on_start`, run every play, then summarize every host in
`stats.processed`. -/
def run (env : Env) (tmpl : Tmpl) (playbook : List Play) (st : PBState) :
    PBState × Except PBError (List (Host × Summary)) :=
  let st := st.emit .on_start
  let r := run_plays env tmpl playbook st
  match r.2 with
  | .ok _ =>
    (r.1, .ok (r.1.stats.processed.map (fun h => (h, r.1.stats.summarize h))))
  | .error e => (r.1, .error e)

def initStats : Stats := ⟨[], [], [], []⟩

def initState (hosts : List Host) : PBState :=
  ⟨[], initStats, ⟨hosts, []⟩, [], 0⟩

/-- Identity template engine, used for concrete evaluations. -/
def tmplId : Tmpl := fun s _ => s

def okRes : HResult := ⟨none, none, none, none, none⟩

def changedRes : HResult := ⟨some true, none, none, none, none⟩

def failedRes : HResult := ⟨none, some 1, none, none, none⟩

def emptyFactsRes : HResult := ⟨none, none, none, none, some []⟩

def factsRes (f : Vars) : HResult := ⟨none, none, none, none, some f⟩

def mkTask (n : String) : Task := ⟨n, "shell", "", [], "", [], 0, 0, []⟩

def mkPlay (ts hs : List Task) : Play := ⟨"p", fun _ => true, [], [], ts, hs⟩

def wH1 : Task := mkTask "restart apache"

def wH2 : Task := mkTask "restart mysql"

def wSt : PBState := initState ["h1", "h2"]
def wEnvC4 : Env :=
  ⟨[⟨⟨[("h1", factsRes [("os", "linux")]), ("h2", okRes)], []⟩,
     ⟨[], []⟩, ⟨[], []⟩, []⟩]⟩

def wStC4 : PBState :=
  { initState ["h1", "h2"] with setup_cache := [("h2", [("x", "1")])] }

def wPlayC4 : Play := mkPlay [] []
def wEnvC5 : Env := ⟨[⟨⟨[], []⟩, ⟨[("h1", okRes)], []⟩, ⟨[], []⟩, ["h1"]⟩]⟩

def wTaskC5 : Task :=
  { mkTask "long job" with async_seconds := 10, async_poll_interval := 2 }
/-- All state components except the event trace agree. -/
def SameCore (st st' : PBState) : Prop :=
  st'.stats = st.stats ∧ st'.setup_cache = st.setup_cache ∧
    st'.inventory = st.inventory ∧ st'.calls = st.calls
def c2Init : Results := ⟨[("h1", okRes)], []⟩

def c2Env : Env := ⟨[⟨⟨[], []⟩, c2Init, ⟨[], []⟩, []⟩]⟩

def c2Env2 : Env := ⟨[⟨⟨[], []⟩, c2Init, ⟨[("h1", failedRes)], []⟩, ["h1"]⟩]⟩

def c2Task : Task :=
  { mkTask "async job" with async_seconds := 5, async_poll_interval := 0 }

def c2St : PBState := initState ["h1"]

/-- The working host set of `_run_task_internal` (line 157). -/
def working_set (st : PBState) : List Host :=
  (st.inventory.list_hosts none).filter
    (fun h => decide (h ∉ st.stats.failures) && decide (h ∉ st.stats.dark))

/-- The ghost dispatch event recorded by `_run_task_internal`. -/
def task_dispatch_event (st : PBState) : Event :=
  .dispatch (working_set st :: st.inventory.restrictions)
    (st.inventory.list_hosts none) (working_set st) st.stats.failures
    st.stats.dark

/-- The working host set of `_do_setup_step` (lines 248-249). -/
def setup_working_set (play : Play) (st : PBState) : List Host :=
  (st.inventory.list_hosts (some play.hosts)).filter
    (fun h => !(decide (h ∈ st.stats.failures) || decide (h ∈ st.stats.dark)))

/-- The ghost dispatch event recorded by `_do_setup_step`. -/
def setup_dispatch_event (play : Play) (st : PBState) : Event :=
  .dispatch (setup_working_set play st :: st.inventory.restrictions)
    (st.inventory.list_hosts (some play.hosts)) (setup_working_set play st)
    st.stats.failures st.stats.dark

def wEnvC3 : Env :=
  ⟨[⟨⟨[("h1", factsRes [("os", "linux")])], []⟩, ⟨[], []⟩, ⟨[], []⟩, []⟩,
    RunnerOutcome.empty]⟩

def wPbC3 : List Play := [mkPlay [] [], mkPlay [] []]

def wPbC1 : List Play := [mkPlay [mkTask "t1", mkTask "t2", mkTask "t3"] []]

def wEnvC1 : Env :=
  ⟨[⟨⟨[("h1", okRes), ("h2", okRes)], []⟩, ⟨[], []⟩, ⟨[], []⟩, []⟩,
    ⟨⟨[("h1", okRes), ("h2", failedRes)], []⟩, ⟨[], []⟩, ⟨[], []⟩, []⟩,
    ⟨⟨[("h1", okRes)], []⟩, ⟨[], []⟩, ⟨[], []⟩, []⟩,
    ⟨⟨[("h1", okRes)], []⟩, ⟨[], []⟩, ⟨[], []⟩, []⟩]⟩

def c9Handler : Task := { mkTask "restart svc" with notify := ["nope"] }

def c9T : Task := { mkTask "t1" with notify := ["restart svc"] }

def c9Pb : List Play := [mkPlay [c9T] [c9Handler]]

def c9Env : Env :=
  ⟨[⟨⟨[("h1", okRes)], []⟩, ⟨[], []⟩, ⟨[], []⟩, []⟩,
    ⟨⟨[("h1", changedRes)], []⟩, ⟨[], []⟩, ⟨[], []⟩, []⟩,
    ⟨⟨[("h1", changedRes)], []⟩, ⟨[], []⟩, ⟨[], []⟩, []⟩]⟩

/-- Events that are not task-start markers. -/
def noTaskStart : Event → Prop
  | .on_task_start _ _ => False
  | _ => True

def hsExtract : Event → Option String
  | .on_task_start n true => some n
  | _ => none

def sfExtract : Event → Option Bool
  | .on_task_start _ b => some b
  | _ => none

/-- The names of the handler runs recorded in a trace, in order. -/
def handlerStarts (events : List Event) : List String :=
  events.filterMap hsExtract

/-- The is-handler flags of the task starts recorded in a trace, in order. -/
def startFlags (events : List Event) : List Bool :=
  events.filterMap sfExtract

def w7H : Task := mkTask "restart svc"

def w7T : Task := { mkTask "t1" with notify := ["restart svc"] }

def w7Play : Play := mkPlay [w7T] [w7H]

def w7Env : Env :=
  ⟨[⟨⟨[("h1", okRes)], []⟩, ⟨[], []⟩, ⟨[], []⟩, []⟩,
    ⟨⟨[("h1", changedRes)], []⟩, ⟨[], []⟩, ⟨[], []⟩, []⟩,
    ⟨⟨[("h1", okRes)], []⟩, ⟨[], []⟩, ⟨[], []⟩, []⟩]⟩

def w7Notified : Task := { w7H with notified_by := ["h1"] }

/-- No contacted result of `r` carries an `ansible_facts` map. -/
def NoFactsR (r : Results) : Prop :=
  ∀ p ∈ r.contacted, p.2.ansible_facts = none

/-- No Runner outcome the environment can supply carries facts. -/
def EnvNoFacts (env : Env) : Prop :=
  ∀ o ∈ env.outcomes,
    NoFactsR o.run_result ∧ NoFactsR o.async_initial ∧ NoFactsR o.poll_result

/-- No task or handler of the playbook notifies. -/
def NoNotify (pb : List Play) : Prop :=
  ∀ play ∈ pb,
    (∀ t ∈ play.tasks, t.notify = []) ∧ (∀ x ∈ play.handlers, x.notify = [])

def w8Pb : List Play := [mkPlay [mkTask "t1"] []]

def w8Env : Env :=
  ⟨[⟨⟨[("h1", okRes)], []⟩, ⟨[], []⟩, ⟨[], []⟩, []⟩,
    ⟨⟨[("h1", failedRes)], [("h2", okRes)]⟩, ⟨[], []⟩, ⟨[], []⟩, []⟩]⟩

/-- A dispatch event is internally consistent: its working set is exactly its
listing minus its failures snapshot minus its dark snapshot. -/
def DispatchOK : Event → Prop
  | .dispatch _ listing working f d =>
      ∀ h, h ∈ working ↔ (h ∈ listing ∧ h ∉ f ∧ h ∉ d)
  | _ => True

/-- The (failures, dark) snapshots of the dispatch events of a trace,
in trace order. -/
def snaps : List Event → List (List Host × List Host)
  | [] => []
  | .dispatch _ _ _ f d :: rest => (f, d) :: snaps rest
  | _ :: rest => snaps rest

/-- Pointwise inclusion of failure/dark snapshots. -/
def SnapLE (a b : List Host × List Host) : Prop :=
  (∀ x ∈ a.1, x ∈ b.1) ∧ (∀ x ∈ a.2, x ∈ b.2)

/-- Trace invariant: every dispatch event is internally consistent, the
dispatch snapshots grow monotonically along the trace, and every snapshot is
below the current failures/dark sets. -/
def TraceOK (events : List Event) (F D : List Host) : Prop :=
  (∀ e ∈ events, DispatchOK e) ∧
  List.Pairwise SnapLE (snaps events) ∧
  (∀ s ∈ snaps events, SnapLE s (F, D))

def StOK (st : PBState) : Prop :=
  TraceOK st.events st.stats.failures st.stats.dark

/-- Events an orchestrator step may append freely: everything except
dispatch records and primary-setup records, which carry snapshots the trace
invariants constrain. -/
def neutralEvent : Event → Prop
  | .on_setup_primary _ => False
  | .dispatch _ _ _ _ _ => False
  | _ => True

/-- The ledger's membership sets are covered by `processed`: a failed or
unreachable host still appears among the processed hosts. -/
def GoodSet (s : Stats) : Prop :=
  (∀ x ∈ s.failures, x ∈ s.processed) ∧ (∀ x ∈ s.dark, x ∈ s.processed)

/-- One orchestrator step from `st` to `st'`: the failures/dark membership
sets only grow, the trace invariant is preserved, any `on_setup_primary`
event added records a cache from `allowed`, and coverage of the membership
sets by `processed` is preserved. -/
def Step (allowed : List (List (Host × Vars))) (st st' : PBState) : Prop :=
  (∀ x ∈ st.stats.failures, x ∈ st'.stats.failures) ∧
  (∀ x ∈ st.stats.dark, x ∈ st'.stats.dark) ∧
  (StOK st → StOK st') ∧
  (∀ c, Event.on_setup_primary c ∈ st'.events →
    Event.on_setup_primary c ∈ st.events ∨ c ∈ allowed) ∧
  (GoodSet st.stats → GoodSet st'.stats)

/-! ## Association-list lemmas -/

instance (r : Results) : Decidable (NoFactsR r) :=
  inferInstanceAs (Decidable (∀ p ∈ r.contacted, p.2.ansible_facts = none))

instance (env : Env) : Decidable (EnvNoFacts env) :=
  inferInstanceAs (Decidable (∀ o ∈ env.outcomes,
    NoFactsR o.run_result ∧ NoFactsR o.async_initial ∧ NoFactsR o.poll_result))

instance (pb : List Play) : Decidable (NoNotify pb) :=
  inferInstanceAs (Decidable (∀ play ∈ pb,
    (∀ t ∈ play.tasks, t.notify = []) ∧ (∀ x ∈ play.handlers, x.notify = [])))

instance (s : Stats) : Decidable (GoodSet s) :=
  inferInstanceAs (Decidable ((∀ x ∈ s.failures, x ∈ s.processed) ∧
    (∀ x ∈ s.dark, x ∈ s.processed)))

theorem getA_setA_self {α : Type} (l : List (String × α)) (k : String) (v : α) :
    getA (setA l k v) k = some v := by
  induction l with
  | nil => simp [setA, getA]
  | cons p rest ih =>
    obtain ⟨k', v'⟩ := p
    by_cases h : k' = k
    · simp [setA, h, getA]
    · simp [setA, h, getA, ih]

theorem getA_setA_ne {α : Type} (l : List (String × α)) (k k' : String) (v : α)
    (h : k' ≠ k) : getA (setA l k v) k' = getA l k' := by
  induction l with
  | nil => simp [setA, getA, Ne.symm h]
  | cons p rest ih =>
    obtain ⟨k1, v1⟩ := p
    by_cases h1 : k1 = k
    · subst h1
      have hne : k1 ≠ k' := Ne.symm h
      simp [setA, getA, hne]
    · by_cases h2 : k1 = k'
      · simp [setA, h1, getA, h2, h]
      · simp [setA, h1, getA, h2, h, ih]

theorem keysA_setA_mem {α : Type} (l : List (String × α)) (k : String) (v : α)
    (h : k ∈ keysA l) : keysA (setA l k v) = keysA l := by
  induction l with
  | nil => simp [keysA] at h
  | cons p rest ih =>
    obtain ⟨k1, v1⟩ := p
    by_cases h1 : k1 = k
    · simp [setA, h1, keysA]
    · have hm : k ∈ keysA rest := by
        have h' : k ∈ k1 :: keysA rest := h
        rcases List.mem_cons.mp h' with hc | hc
        · exact absurd hc.symm h1
        · exact hc
      simp only [setA, if_neg h1]
      show k1 :: keysA (setA rest k v) = k1 :: keysA rest
      rw [ih hm]

theorem mem_keysA_iff {α : Type} (l : List (String × α)) (k : String) :
    k ∈ keysA l ↔ ∃ v, (k, v) ∈ l := by
  constructor
  · intro h
    obtain ⟨⟨k1, v1⟩, hp, he⟩ := List.mem_map.mp h
    cases he
    exact ⟨v1, hp⟩
  · rintro ⟨v, hv⟩
    exact List.mem_map.mpr ⟨(k, v), hv, rfl⟩

/-! ## Fact-merge lemmas (`_run_task`, lines 196-199) -/

theorem mergeEntries_ok_of_mem (host : Host) (facts : Vars) :
    ∀ cache, host ∈ keysA cache →
      ∃ c2, mergeEntries cache host facts = .ok c2 ∧ keysA c2 = keysA cache := by
  induction facts with
  | nil => intro cache _; exact ⟨cache, rfl, rfl⟩
  | cons kv rest ih =>
    intro cache h
    obtain ⟨k, v⟩ := kv
    have hk : keysA (setA cache host (setA ((getA cache host).getD []) k v)) =
        keysA cache := keysA_setA_mem _ _ _ h
    obtain ⟨c2, h1, h2⟩ := ih _ (hk.symm ▸ h)
    refine ⟨c2, ?_, h2.trans hk⟩
    simpa [mergeEntries, h] using h1

theorem mergeEntries_err (host : Host) (facts : Vars) (cache : List (Host × Vars))
    (h : host ∉ keysA cache) (hf : facts ≠ []) :
    mergeEntries cache host facts = .error (.keyError host) := by
  cases facts with
  | nil => exact absurd rfl hf
  | cons kv rest =>
    obtain ⟨k, v⟩ := kv
    simp [mergeEntries, h]

theorem mergeEntries_ok_keysA (host : Host) :
    ∀ facts cache c2, mergeEntries cache host facts = .ok c2 →
      keysA c2 = keysA cache := by
  intro facts
  induction facts with
  | nil =>
    intro cache c2 h
    simp [mergeEntries] at h
    simp [h]
  | cons kv rest ih =>
    intro cache c2 h
    obtain ⟨k, v⟩ := kv
    by_cases hk : host ∈ keysA cache
    · simp only [mergeEntries, if_pos hk] at h
      exact (ih _ _ h).trans (keysA_setA_mem _ _ _ hk)
    · simp [mergeEntries, hk] at h

theorem merge_facts_ok_keysA :
    ∀ contacted cache c2, merge_facts cache contacted = .ok c2 →
      keysA c2 = keysA cache := by
  intro contacted
  induction contacted with
  | nil =>
    intro cache c2 h
    simp [merge_facts] at h
    simp [h]
  | cons p rest ih =>
    intro cache c2 h
    obtain ⟨host, result⟩ := p
    cases hfa : result.ansible_facts with
    | none =>
      simp only [merge_facts, hfa] at h
      exact ih _ _ h
    | some facts =>
      cases hme : mergeEntries cache host facts with
      | ok c1 =>
        simp only [merge_facts, hfa, hme] at h
        exact (ih _ _ h).trans (mergeEntries_ok_keysA _ _ _ _ hme)
      | error e => simp [merge_facts, hfa, hme] at h

theorem merge_facts_no_facts (contacted : List (Host × HResult)) :
    ∀ cache, (∀ p ∈ contacted, p.2.ansible_facts = none) →
      merge_facts cache contacted = .ok cache := by
  induction contacted with
  | nil => intro cache _; rfl
  | cons p rest ih =>
    intro cache h
    obtain ⟨host, result⟩ := p
    have hh : result.ansible_facts = none := h (host, result) (by simp)
    rw [merge_facts, hh]
    exact ih cache (fun q hq => h q (by simp [hq]))

/-- C10: the fact merge of task execution raises KeyError exactly when some
contacted host carries a non-empty `ansible_facts` map while absent from the
setup cache; it is safe precisely for hosts already populated (amended: a
present-but-empty facts map does not raise, since the per-entry loop never
indexes the cache). -/
theorem claimC10_fact_merge_keyError :
    ∀ (contacted : List (Host × HResult)) (cache : List (Host × Vars)),
      (∃ e, merge_facts cache contacted = .error e) ↔
      (∃ p ∈ contacted, ∃ f, p.2.ansible_facts = some f ∧ f ≠ [] ∧
        p.1 ∉ keysA cache) := by
  intro contacted
  induction contacted with
  | nil => intro cache; simp [merge_facts]
  | cons p rest ih =>
    intro cache
    obtain ⟨host, result⟩ := p
    cases hfa : result.ansible_facts with
    | none =>
      simp only [merge_facts, hfa]
      rw [ih cache]
      constructor
      · rintro ⟨q, hq, hf⟩
        exact ⟨q, by simp [hq], hf⟩
      · rintro ⟨q, hq, hf⟩
        rcases List.mem_cons.mp hq with heq | hq2
        · obtain ⟨f, hf1, _⟩ := hf
          rw [heq] at hf1
          simp [hfa] at hf1
        · exact ⟨q, hq2, hf⟩
    | some facts =>
      by_cases hk : host ∈ keysA cache
      · obtain ⟨c2, hme, hkeys⟩ := mergeEntries_ok_of_mem host facts cache hk
        simp only [merge_facts, hfa, hme]
        rw [ih c2]
        constructor
        · rintro ⟨q, hq, f, h1, h2, h3⟩
          exact ⟨q, by simp [hq], f, h1, h2, by rw [← hkeys]; exact h3⟩
        · rintro ⟨q, hq, f, h1, h2, h3⟩
          rcases List.mem_cons.mp hq with heq | hq2
          · rw [heq] at h3
            exact absurd hk (by simpa using h3)
          · exact ⟨q, hq2, f, h1, h2, by rw [hkeys]; exact h3⟩
      · by_cases hf : facts = []
        · subst hf
          simp only [merge_facts, hfa, mergeEntries]
          rw [ih cache]
          constructor
          · rintro ⟨q, hq, hfq⟩
            exact ⟨q, by simp [hq], hfq⟩
          · rintro ⟨q, hq, f, h1, h2, h3⟩
            rcases List.mem_cons.mp hq with heq | hq2
            · rw [heq] at h1
              simp [hfa] at h1
              exact absurd h1.symm (fun hc => h2 hc.symm)
            · exact ⟨q, hq2, f, h1, h2, h3⟩
        · have hme := mergeEntries_err host facts cache hk hf
          simp only [merge_facts, hfa, hme]
          constructor
          · intro _
            exact ⟨(host, result), by simp, facts, hfa, hf, hk⟩
          · intro _
            exact ⟨.keyError host, rfl⟩

/-- C10 counterexample to the claim as stated: a contacted host whose result
contains an `ansible_facts` key bound to the empty map, with no cache entry
for the host, does not raise — the merge returns the cache unchanged. -/
theorem claimC10_counterexample :
    merge_facts ([] : List (Host × Vars)) [("h1", emptyFactsRes)] =
        .ok ([] : List (Host × Vars)) ∧
      emptyFactsRes.ansible_facts = some [] ∧
      "h1" ∉ keysA ([] : List (Host × Vars)) := by
  refine ⟨rfl, rfl, ?_⟩
  simp [keysA]

/-- C10 witness: a non-empty facts map for an uncached host does raise. -/
theorem claimC10_witness :
    ∃ e, merge_facts ([] : List (Host × Vars))
      [("h1", factsRes [("a", "b")])] = .error e :=
  (claimC10_fact_merge_keyError _ _).mpr
    ⟨("h1", factsRes [("a", "b")]), by simp, [("a", "b")], rfl, by simp,
      by simp [keysA]⟩

/-! ## Handler flagging (`_flag_handler`) -/

theorem flag_handler_scan_spec (handler_name : String) (host : Host) :
    ∀ (handlers : List Task) (st : PBState),
      flag_handler_scan handler_name host handlers st =
        ({ st with events := st.events ++
            ((handlers.filter (fun x => decide (x.name = handler_name))).map
              (fun x => Event.on_notify host x.name)) },
         handlers.map (fun x =>
           if x.name = handler_name then
             { x with notified_by := x.notified_by ++ [host] }
           else x),
         handlers.any (fun x => decide (x.name = handler_name))) := by
  intro handlers
  induction handlers with
  | nil => intro st; simp [flag_handler_scan]
  | cons x rest ih =>
    intro st
    by_cases h : x.name = handler_name
    · simp [flag_handler_scan, h, ih, PBState.emit, List.append_assoc]
    · simp [flag_handler_scan, h, ih]

/-- C6: handler flagging scans the handler list in order; every handler whose
name equals the templated name gets an `on_notify` event and the host
appended to its `notified_by`, with the list order preserved; if no handler
matches, the run fails with the configuration error
"change handler (X) is not defined" and the state is untouched. -/
theorem claimC6_flag_handler (handlers : List Task) (hname : String)
    (host : Host) (st : PBState) :
    ((∃ x ∈ handlers, x.name = hname) →
      flag_handler handlers hname host st =
        ({ st with events := st.events ++
            ((handlers.filter (fun x => decide (x.name = hname))).map
              (fun x => Event.on_notify host x.name)) },
         .ok (handlers.map (fun x =>
           if x.name = hname then
             { x with notified_by := x.notified_by ++ [host] }
           else x)))) ∧
    ((∀ x ∈ handlers, x.name ≠ hname) →
      flag_handler handlers hname host st =
        (st, .error (.ansibleError
          ("change handler (" ++ hname ++ ") is not defined")))) := by
  constructor
  · intro hex
    have hany : handlers.any (fun x => decide (x.name = hname)) = true := by
      rw [List.any_eq_true]
      obtain ⟨x, hx, he⟩ := hex
      exact ⟨x, hx, by simp [he]⟩
    simp [flag_handler, flag_handler_scan_spec, hany]
  · intro hnone
    have hany : handlers.any (fun x => decide (x.name = hname)) = false := by
      rw [List.any_eq_false]
      intro x hx
      simp [hnone x hx]
    have hfil : handlers.filter (fun x => decide (x.name = hname)) = [] := by
      rw [List.filter_eq_nil_iff]
      intro x hx
      simp [hnone x hx]
    simp [flag_handler, flag_handler_scan_spec, hany, hfil]

/-- C6 witness at concrete inputs: one matching handler flagged, and the
undefined-handler configuration error. -/
theorem claimC6_witness :
    flag_handler [wH1, wH2] "restart apache" "h1" wSt =
      ({ wSt with events := wSt.events ++
          (([wH1, wH2].filter (fun x => decide (x.name = "restart apache"))).map
            (fun x => Event.on_notify "h1" x.name)) },
       .ok ([wH1, wH2].map (fun x =>
         if x.name = "restart apache" then
           { x with notified_by := x.notified_by ++ ["h1"] }
         else x))) ∧
    flag_handler [wH1] "restart xyz" "h1" wSt =
      (wSt, .error (.ansibleError
        ("change handler (" ++ "restart xyz" ++ ") is not defined"))) := by
  constructor
  · exact (claimC6_flag_handler [wH1, wH2] "restart apache" "h1" wSt).1
      ⟨wH1, by simp, rfl⟩
  · exact (claimC6_flag_handler [wH1] "restart xyz" "h1" wSt).2
      (by intro x hx; simp at hx; subst hx; decide)

/-! ## Setup-step cache semantics (`_do_setup_step`, lines 267-273) -/

theorem apply_facts_not_mem (h : Host) :
    ∀ (contacted : List (Host × HResult)) (c : List (Host × Vars)),
      (∀ r, (h, r) ∈ contacted → r.ansible_facts = none) →
      getA (apply_facts contacted c) h = getA c h := by
  intro contacted
  induction contacted with
  | nil => intro c _; rfl
  | cons p rest ih =>
    intro c hn
    obtain ⟨h1, r1⟩ := p
    cases hfa : r1.ansible_facts with
    | none =>
      simp only [apply_facts, hfa]
      exact ih c (fun r hr => hn r (by simp [hr]))
    | some f =>
      have hne : h1 ≠ h := by
        intro hc
        subst hc
        exact absurd hfa (by rw [hn r1 (by simp)]; simp)
      simp only [apply_facts, hfa]
      rw [ih _ (fun r hr => hn r (by simp [hr]))]
      exact getA_setA_ne c h1 h f (fun hc => hne hc.symm)

theorem apply_facts_mem (h : Host) (f : Vars) :
    ∀ (contacted : List (Host × HResult)) (c : List (Host × Vars)),
      (keysA contacted).Nodup →
      (∃ r, (h, r) ∈ contacted ∧ r.ansible_facts = some f) →
      getA (apply_facts contacted c) h = some f := by
  intro contacted
  induction contacted with
  | nil =>
    intro c _ hex
    obtain ⟨r, hr, _⟩ := hex
    simp at hr
  | cons p rest ih =>
    intro c hnd hex
    obtain ⟨h1, r1⟩ := p
    have hnd' : h1 ∉ keysA rest ∧ (keysA rest).Nodup := by
      have : (h1 :: keysA rest).Nodup := hnd
      exact ⟨(List.nodup_cons.mp this).1, (List.nodup_cons.mp this).2⟩
    obtain ⟨r, hr, hfa⟩ := hex
    rcases List.mem_cons.mp hr with heq | hmem
    · injection heq with e1 e2
      subst e1
      subst e2
      simp only [apply_facts, hfa]
      rw [apply_facts_not_mem h rest _ (fun r' hr' =>
        absurd ((mem_keysA_iff rest h).mpr ⟨r', hr'⟩) hnd'.1)]
      exact getA_setA_self c h f
    · cases hfa1 : r1.ansible_facts with
      | none =>
        simp only [apply_facts, hfa1]
        exact ih c hnd'.2 ⟨r, hmem, hfa⟩
      | some f1 =>
        simp only [apply_facts, hfa1]
        exact ih _ hnd'.2 ⟨r, hmem, hfa⟩

theorem do_setup_step_secondary_cache (env : Env) (play : Play)
    (vf : List String) (st : PBState) :
    (do_setup_step env play (some vf) st).1.setup_cache = st.setup_cache := rfl

theorem do_setup_step_primary_cache (env : Env) (play : Play) (st : PBState) :
    (do_setup_step env play none st).1.setup_cache =
      apply_facts (env.get st.calls).run_result.contacted st.setup_cache := rfl

/-- C4: on the primary setup step, each contacted host returning an
`ansible_facts` map has its setup-cache entry fully replaced by that map and
hosts returning no facts keep their previous entry; the secondary
(vars_files) setup step never writes the cache. -/
theorem claimC4_setup_cache (env : Env) (play : Play) (st : PBState) :
    (∀ vf, (do_setup_step env play (some vf) st).1.setup_cache =
      st.setup_cache) ∧
    ((keysA (env.get st.calls).run_result.contacted).Nodup →
      (∀ h r f, (h, r) ∈ (env.get st.calls).run_result.contacted →
        r.ansible_facts = some f →
        getA (do_setup_step env play none st).1.setup_cache h = some f) ∧
      (∀ h, (∀ r, (h, r) ∈ (env.get st.calls).run_result.contacted →
          r.ansible_facts = none) →
        getA (do_setup_step env play none st).1.setup_cache h =
          getA st.setup_cache h)) := by
  refine ⟨fun vf => do_setup_step_secondary_cache env play vf st,
    fun hnd => ⟨?_, ?_⟩⟩
  · intro h r f hm hf
    rw [do_setup_step_primary_cache]
    exact apply_facts_mem h f _ _ hnd ⟨r, hm, hf⟩
  · intro h hn
    rw [do_setup_step_primary_cache]
    exact apply_facts_not_mem h _ _ hn

/-- C4 witness: concrete primary replacement, fact-free host untouched, and
secondary pass leaving the cache intact. -/
theorem claimC4_witness :
    (do_setup_step wEnvC4 wPlayC4 (some ["v.yml"]) wStC4).1.setup_cache =
        wStC4.setup_cache ∧
      getA (do_setup_step wEnvC4 wPlayC4 none wStC4).1.setup_cache "h1" =
        some [("os", "linux")] ∧
      getA (do_setup_step wEnvC4 wPlayC4 none wStC4).1.setup_cache "h2" =
        getA wStC4.setup_cache "h2" := by
  have hc := claimC4_setup_cache wEnvC4 wPlayC4 wStC4
  have hnd : (keysA (wEnvC4.get wStC4.calls).run_result.contacted).Nodup := by
    decide
  refine ⟨hc.1 ["v.yml"],
    (hc.2 hnd).1 "h1" (factsRes [("os", "linux")]) _ (by decide) rfl,
    (hc.2 hnd).2 "h2" ?_⟩
  intro r hr
  have hr' : ("h2", r) ∈
      [("h1", factsRes [("os", "linux")]), ("h2", okRes)] := hr
  rcases List.mem_cons.mp hr' with h1 | h2
  · injection h1 with e1 _
    exact absurd e1 (by decide)
  · rcases List.mem_cons.mp h2 with h3 | h4
    · injection h3 with _ e2
      rw [e2]
      rfl
    · simp at h4

/-! ## Async polling (`_async_poll`) -/

theorem async_poll_loop_not_mem (h : Host) :
    ∀ (hosts : List Host) (st : PBState) (results : Results), h ∉ hosts →
      getA (async_poll_loop hosts st results).2.contacted h =
        getA results.contacted h := by
  intro hosts
  induction hosts with
  | nil => intro st results _; rfl
  | cons x rest ih =>
    intro st results hn
    have hx : h ≠ x := fun hc => hn (by simp [hc])
    have hr : h ∉ rest := fun hc => hn (by simp [hc])
    simp only [async_poll_loop]
    rw [ih _ _ hr]
    exact getA_setA_ne _ x h timedOutReason hx

theorem async_poll_loop_mem (h : Host) :
    ∀ (hosts : List Host) (st : PBState) (results : Results), h ∈ hosts →
      getA (async_poll_loop hosts st results).2.contacted h =
        some timedOutReason := by
  intro hosts
  induction hosts with
  | nil => intro st results hm; simp at hm
  | cons x rest ih =>
    intro st results hm
    by_cases hr : h ∈ rest
    · simp only [async_poll_loop]
      exact ih _ _ hr
    · have hx : h = x := by
        rcases List.mem_cons.mp hm with hc | hc
        · exact hc
        · exact absurd hc hr
      subst hx
      simp only [async_poll_loop]
      rw [async_poll_loop_not_mem h rest _ _ hr]
      exact getA_setA_self _ h timedOutReason

theorem async_poll_loop_events :
    ∀ (hosts : List Host) (st : PBState) (results : Results),
      (async_poll_loop hosts st results).1.events =
        st.events ++ hosts.map (fun x => Event.on_failed x timedOutReason) := by
  intro hosts
  induction hosts with
  | nil => intro st results; simp [async_poll_loop]
  | cons x rest ih =>
    intro st results
    simp only [async_poll_loop]
    rw [ih]
    simp [PBState.emit]

theorem count_on_failed_map (h : Host) :
    ∀ hosts : List Host,
      (hosts.map (fun x => Event.on_failed x timedOutReason)).count
        (Event.on_failed h timedOutReason) = hosts.count h := by
  intro hosts
  induction hosts with
  | nil => rfl
  | cons x rest ih =>
    simp only [List.map_cons, List.count_cons, ih]
    by_cases hx : x = h <;> simp [hx]

/-- C5: for a polled async task, every host still listed in
`poller.hosts_to_poll` when the wait returns is recorded as contacted with
`{failed: 1, rc: null, msg: "timed out"}`, and `on_failed` fires exactly once
for it (the poller reports each unfinished host once). -/
theorem claimC5_async_timeout (env : Env) (play : Play) (task : Task)
    (st : PBState) (h : Host)
    (hA : task.async_seconds ≠ 0) (hP : 0 < task.async_poll_interval)
    (hnd : (env.get st.calls).hosts_to_poll.Nodup)
    (hh : h ∈ (env.get st.calls).hosts_to_poll) :
    getA (run_task_internal env play task st).2.contacted h =
        some timedOutReason ∧
      ((run_task_internal env play task st).1.events.drop
          st.events.length).count (Event.on_failed h timedOutReason) = 1 := by
  simp only [run_task_internal, if_neg hA, if_pos hP, async_poll,
    PBState.emit]
  constructor
  · exact async_poll_loop_mem h _ _ _ hh
  · rw [async_poll_loop_events]
    simp only [List.append_assoc, List.singleton_append]
    rw [List.drop_left]
    simp only [List.count_cons, count_on_failed_map]
    rw [List.count_eq_one_of_mem hnd hh]
    simp

/-- C5 witness at a concrete polled async task whose host never reports. -/
theorem claimC5_witness :
    getA (run_task_internal wEnvC5 wPlayC4 wTaskC5
        (initState ["h1"])).2.contacted "h1" = some timedOutReason ∧
      ((run_task_internal wEnvC5 wPlayC4 wTaskC5
          (initState ["h1"])).1.events.drop
            (initState ["h1"]).events.length).count
        (Event.on_failed "h1" timedOutReason) = 1 :=
  claimC5_async_timeout wEnvC5 wPlayC4 wTaskC5 (initState ["h1"]) "h1"
    (by decide) (by decide) (by decide) (by decide)

/-! ## Notify processing touches only events and handlers -/

theorem sameCore_refl (st : PBState) : SameCore st st := ⟨rfl, rfl, rfl, rfl⟩

theorem sameCore_trans {a b c : PBState} (h1 : SameCore a b)
    (h2 : SameCore b c) : SameCore a c :=
  ⟨h2.1.trans h1.1, h2.2.1.trans h1.2.1, h2.2.2.1.trans h1.2.2.1,
    h2.2.2.2.trans h1.2.2.2⟩

theorem flag_handler_fst (handlers : List Task) (hname : String) (host : Host)
    (st : PBState) :
    (flag_handler handlers hname host st).1 =
      { st with events := st.events ++
          ((handlers.filter (fun x => decide (x.name = hname))).map
            (fun x => Event.on_notify host x.name)) } := by
  unfold flag_handler
  rw [flag_handler_scan_spec]
  by_cases hc : handlers.any (fun x => decide (x.name = hname)) <;> simp [hc]

theorem flag_handler_core (handlers : List Task) (hname : String) (host : Host)
    (st : PBState) : SameCore st (flag_handler handlers hname host st).1 := by
  rw [flag_handler_fst]
  exact ⟨rfl, rfl, rfl, rfl⟩

theorem notify_names_core (tmpl : Tmpl) (mvars : Vars) (host : Host) :
    ∀ (names : List String) (handlers : List Task) (st : PBState),
      SameCore st (notify_names tmpl mvars host names handlers st).1 := by
  intro names
  induction names with
  | nil => intro handlers st; exact sameCore_refl st
  | cons n rest ih =>
    intro handlers st
    simp only [notify_names]
    cases hr : (flag_handler handlers (tmpl n mvars) host st).2 with
    | ok handlers2 =>
      exact sameCore_trans (flag_handler_core handlers (tmpl n mvars) host st)
        (ih handlers2 _)
    | error e =>
      exact flag_handler_core handlers (tmpl n mvars) host st

theorem notify_hosts_core (tmpl : Tmpl) (mvars : Vars) (names : List String) :
    ∀ (contacted : List (Host × HResult)) (handlers : List Task)
      (st : PBState),
      SameCore st (notify_hosts tmpl mvars names contacted handlers st).1 := by
  intro contacted
  induction contacted with
  | nil => intro handlers st; exact sameCore_refl st
  | cons p rest ih =>
    intro handlers st
    obtain ⟨host, res⟩ := p
    simp only [notify_hosts]
    by_cases hch : res.changed.getD false
    · simp only [if_pos hch]
      cases hr : (notify_names tmpl mvars host names handlers st).2 with
      | ok handlers2 =>
        exact sameCore_trans (notify_names_core tmpl mvars host names handlers
          st) (ih handlers2 _)
      | error e => exact notify_names_core tmpl mvars host names handlers st
    · simp only [if_neg hch]
      exact ih handlers st

/-! ## Fire-and-forget async dispatch (`_run_task_internal`, lines 173-183) -/

theorem run_task_internal_ff_proj (env : Env) (play : Play) (task : Task)
    (st : PBState) (hA : task.async_seconds ≠ 0)
    (hP : ¬0 < task.async_poll_interval) :
    (run_task_internal env play task st).1.stats =
        st.stats.compute (env.get st.calls).async_initial false ∧
      (run_task_internal env play task st).1.setup_cache = st.setup_cache ∧
      (run_task_internal env play task st).2 =
        (env.get st.calls).async_initial := by
  simp [run_task_internal, if_neg hA, if_neg hP, PBState.emit]

/-- C2 (amended): a task with `async_seconds > 0` and
`async_poll_interval == 0` is fire-and-forget — the Poller is never
consulted (the outcome depends only on the initial async results, and the
initial results are returned as the task's results) — but the initial
results are folded into the Stats ledger exactly TWICE: once right after the
async launch inside the dispatcher, and once more by the task-level fold. -/
theorem claimC2_fire_and_forget (env env2 : Env) (tmpl : Tmpl) (play : Play)
    (task : Task) (ihb : Bool) (handlers : List Task) (st : PBState)
    (hA : task.async_seconds ≠ 0) (hP : task.async_poll_interval = 0) :
    ((env.get st.calls).async_initial = (env2.get st.calls).async_initial →
      run_task_internal env play task st =
        run_task_internal env2 play task st) ∧
    (run_task_internal env play task st).2 =
      (env.get st.calls).async_initial ∧
    ((∃ c2, merge_facts st.setup_cache
        (env.get st.calls).async_initial.contacted = .ok c2) →
      (run_task env tmpl play task ihb handlers st).1.stats =
        ((st.stats.compute (env.get st.calls).async_initial false).compute
          (env.get st.calls).async_initial false)) := by
  have hP' : ¬0 < task.async_poll_interval := by omega
  refine ⟨?_, (run_task_internal_ff_proj env play task st hA hP').2.2, ?_⟩
  · intro henv
    simp only [run_task_internal, if_neg hA, if_neg hP']
    rw [henv]
  · rintro ⟨c2, hm⟩
    simp only [run_task]
    have hcalls : (st.emit (.on_task_start task.name ihb)).calls = st.calls :=
      rfl
    have hproj := run_task_internal_ff_proj env play task
      (st.emit (.on_task_start task.name ihb)) hA hP'
    rw [hcalls] at hproj
    rw [hproj.2.1, hproj.2.2]
    have hcache : (st.emit (.on_task_start task.name ihb)).setup_cache =
        st.setup_cache := rfl
    rw [hcache, hm]
    simp only
    by_cases hn : task.notify.length > 0
    · simp only [if_pos hn]
      have := notify_hosts_core tmpl task.module_vars task.notify
        (env.get st.calls).async_initial.contacted handlers
      refine Eq.trans (this _).1 ?_
      simp only [hproj.1]
      rfl
    · simp only [if_neg hn]
      simp only [hproj.1]
      rfl

/-- C2 counterexample to "folded exactly once": after one fire-and-forget
task the host's ok-counter is 2, whereas a single fold yields 1. -/
theorem claimC2_counterexample :
    ((run_task c2Env tmplId (mkPlay [c2Task] []) c2Task false []
        c2St).1.stats.summarize "h1").ok = 2 ∧
      ((c2St.stats.compute c2Init false).summarize "h1").ok = 1 := by
  constructor <;> rfl

/-- C2 witness: concrete fire-and-forget task, insensitive to the poller
fields of the environment, returning the initial results, double-folded. -/
theorem claimC2_witness :
    (run_task_internal c2Env (mkPlay [c2Task] []) c2Task c2St =
        run_task_internal c2Env2 (mkPlay [c2Task] []) c2Task c2St) ∧
      (run_task_internal c2Env (mkPlay [c2Task] []) c2Task c2St).2 =
        (c2Env.get c2St.calls).async_initial ∧
      (run_task c2Env tmplId (mkPlay [c2Task] []) c2Task false []
          c2St).1.stats =
        ((c2St.stats.compute (c2Env.get c2St.calls).async_initial
            false).compute (c2Env.get c2St.calls).async_initial false) := by
  have h := claimC2_fire_and_forget c2Env c2Env2 tmplId (mkPlay [c2Task] [])
    c2Task false [] c2St (by decide) rfl
  exact ⟨h.1 rfl, h.2.1, h.2.2 ⟨[], rfl⟩⟩

/-! ## Trace-invariant machinery -/

theorem snapLE_refl (a : List Host × List Host) : SnapLE a a :=
  ⟨fun _ hx => hx, fun _ hx => hx⟩

theorem snapLE_trans {a b c : List Host × List Host} (h1 : SnapLE a b)
    (h2 : SnapLE b c) : SnapLE a c :=
  ⟨fun x hx => h2.1 x (h1.1 x hx), fun x hx => h2.2 x (h1.2 x hx)⟩

theorem Step.refl' (A : List (List (Host × Vars))) (st : PBState) :
    Step A st st :=
  ⟨fun _ hx => hx, fun _ hx => hx, id, fun _ hc => Or.inl hc, id⟩

theorem Step.trans' {A : List (List (Host × Vars))} {a b c : PBState}
    (h1 : Step A a b) (h2 : Step A b c) : Step A a c := by
  refine ⟨fun x hx => h2.1 x (h1.1 x hx), fun x hx => h2.2.1 x (h1.2.1 x hx),
    fun hok => h2.2.2.1 (h1.2.2.1 hok), fun ce hc => ?_,
    fun g => h2.2.2.2.2 (h1.2.2.2.2 g)⟩
  rcases h2.2.2.2.1 ce hc with hin | hA
  · exact h1.2.2.2.1 ce hin
  · exact Or.inr hA

theorem snaps_append : ∀ a b : List Event, snaps (a ++ b) = snaps a ++ snaps b := by
  intro a b
  induction a with
  | nil => rfl
  | cons e rest ih => cases e <;> simp [snaps, ih]

theorem snaps_nil_of_neutral : ∀ Δ : List Event, (∀ e ∈ Δ, neutralEvent e) →
    snaps Δ = [] := by
  intro Δ hΔ
  induction Δ with
  | nil => rfl
  | cons e rest ih =>
    have he : neutralEvent e := hΔ e (by simp)
    have hr := ih (fun x hx => hΔ x (by simp [hx]))
    cases e <;> simp_all [snaps, neutralEvent]

theorem dispatchOK_of_neutral (e : Event) (hn : neutralEvent e) :
    DispatchOK e := by
  cases e <;> simp_all [DispatchOK, neutralEvent]

theorem Step_same (A : List (List (Host × Vars))) (st st' : PBState)
    (hev : st'.events = st.events) (hst : st'.stats = st.stats) :
    Step A st st' := by
  refine ⟨fun x hx => by rw [hst]; exact hx, fun x hx => by rw [hst]; exact hx,
    fun hok => ?_, fun c hc => Or.inl (hev ▸ hc), fun g => by rw [hst]; exact g⟩
  unfold StOK
  rw [hev, hst]
  exact hok

theorem Step_append_neutral (A : List (List (Host × Vars))) (st : PBState)
    (Δ : List Event) (hn : ∀ e ∈ Δ, neutralEvent e) :
    Step A st { st with events := st.events ++ Δ } := by
  refine ⟨fun _ hx => hx, fun _ hx => hx, fun hok => ?_, fun c hc => ?_,
    fun g => g⟩
  · obtain ⟨h1, h2, h3⟩ := hok
    refine ⟨fun e he => ?_, ?_, ?_⟩
    · rcases List.mem_append.mp he with he | he
      · exact h1 e he
      · exact dispatchOK_of_neutral e (hn e he)
    · show List.Pairwise SnapLE (snaps (st.events ++ Δ))
      rw [snaps_append, snaps_nil_of_neutral Δ hn, List.append_nil]
      exact h2
    · show ∀ s ∈ snaps (st.events ++ Δ), _
      rw [snaps_append, snaps_nil_of_neutral Δ hn, List.append_nil]
      exact h3
  · rcases List.mem_append.mp hc with hc | hc
    · exact Or.inl hc
    · exact absurd (hn _ hc) (by simp [neutralEvent])

theorem Step_emit_neutral (A : List (List (Host × Vars))) (st : PBState)
    (e : Event) (hn : neutralEvent e) : Step A st (st.emit e) :=
  Step_append_neutral A st [e] (by intro x hx; simp at hx; rw [hx]; exact hn)

theorem Step_emit_primary (A : List (List (Host × Vars))) (st : PBState)
    (c : List (Host × Vars)) (hc : c ∈ A) :
    Step A st (st.emit (.on_setup_primary c)) := by
  refine ⟨fun _ hx => hx, fun _ hx => hx, fun hok => ?_, fun ce hce => ?_,
    fun g => g⟩
  · obtain ⟨h1, h2, h3⟩ := hok
    have hsn : snaps (st.events ++ [Event.on_setup_primary c]) =
        snaps st.events := by
      rw [snaps_append]
      simp [snaps]
    refine ⟨fun e he => ?_, ?_, ?_⟩
    · rcases List.mem_append.mp he with he | he
      · exact h1 e he
      · simp at he
        rw [he]
        simp [DispatchOK]
    · show List.Pairwise SnapLE (snaps (st.events ++ _))
      rw [hsn]; exact h2
    · show ∀ s ∈ snaps (st.events ++ _), _
      rw [hsn]; exact h3
  · rcases List.mem_append.mp hce with hce | hce
    · exact Or.inl hce
    · simp at hce
      rw [hce]
      exact Or.inr hc

theorem Step_emit_dispatch (A : List (List (Host × Vars))) (st : PBState)
    (r : List (List Host)) (l w : List Host)
    (hw : ∀ h, h ∈ w ↔ (h ∈ l ∧ h ∉ st.stats.failures ∧ h ∉ st.stats.dark)) :
    Step A st
      (st.emit (.dispatch r l w st.stats.failures st.stats.dark)) := by
  refine ⟨fun _ hx => hx, fun _ hx => hx, fun hok => ?_, fun ce hce => ?_,
    fun g => g⟩
  · obtain ⟨h1, h2, h3⟩ := hok
    have hsn : snaps (st.events ++
        [Event.dispatch r l w st.stats.failures st.stats.dark]) =
        snaps st.events ++ [(st.stats.failures, st.stats.dark)] := by
      rw [snaps_append]
      rfl
    refine ⟨fun e he => ?_, ?_, ?_⟩
    · rcases List.mem_append.mp he with he | he
      · exact h1 e he
      · simp at he
        rw [he]
        exact hw
    · show List.Pairwise SnapLE (snaps (st.events ++ _))
      rw [hsn]
      rw [List.pairwise_append]
      refine ⟨h2, by simp, fun a ha b hb => ?_⟩
      simp at hb
      rw [hb]
      exact h3 a ha
    · show ∀ s ∈ snaps (st.events ++ _), _
      rw [hsn]
      intro s hs
      rcases List.mem_append.mp hs with hs | hs
      · exact h3 s hs
      · simp at hs
        rw [hs]
        exact snapLE_refl _
  · rcases List.mem_append.mp hce with hce | hce
    · exact Or.inl hce
    · simp at hce

theorem addHost_mem_mono (l : List Host) (h x : Host) (hx : x ∈ l) :
    x ∈ addHost l h := by
  unfold addHost
  split <;> simp [hx]

theorem computeC_failures_mono (b : Bool) :
    ∀ (contacted : List (Host × HResult)) (s : Stats) (x : Host),
      x ∈ s.failures → x ∈ (computeC b contacted s).failures := by
  intro contacted
  induction contacted with
  | nil => intro s x hx; exact hx
  | cons p rest ih =>
    intro s x hx
    obtain ⟨h, res⟩ := p
    simp only [computeC]
    split
    · exact ih _ x (addHost_mem_mono _ _ _ hx)
    · split
      · exact ih _ x hx
      · split <;> exact ih _ x hx

theorem computeC_dark (b : Bool) :
    ∀ (contacted : List (Host × HResult)) (s : Stats),
      (computeC b contacted s).dark = s.dark := by
  intro contacted
  induction contacted with
  | nil => intro s; rfl
  | cons p rest ih =>
    intro s
    obtain ⟨h, res⟩ := p
    simp only [computeC]
    split
    · rw [ih]
    · split
      · rw [ih]
      · split <;> rw [ih]

theorem computeD_failures :
    ∀ (dark : List (Host × HResult)) (s : Stats),
      (computeD dark s).failures = s.failures := by
  intro dark
  induction dark with
  | nil => intro s; rfl
  | cons p rest ih =>
    intro s
    obtain ⟨h, res⟩ := p
    simp only [computeD]
    rw [ih]

theorem computeD_dark_mono :
    ∀ (dark : List (Host × HResult)) (s : Stats) (x : Host),
      x ∈ s.dark → x ∈ (computeD dark s).dark := by
  intro dark
  induction dark with
  | nil => intro s x hx; exact hx
  | cons p rest ih =>
    intro s x hx
    obtain ⟨h, res⟩ := p
    simp only [computeD]
    exact ih _ x (addHost_mem_mono _ _ _ hx)

theorem compute_failures_mono (s : Stats) (r : Results) (b : Bool) (x : Host)
    (hx : x ∈ s.failures) : x ∈ (s.compute r b).failures := by
  unfold Stats.compute
  rw [computeD_failures]
  exact computeC_failures_mono b _ s x hx

theorem compute_dark_mono (s : Stats) (r : Results) (b : Bool) (x : Host)
    (hx : x ∈ s.dark) : x ∈ (s.compute r b).dark := by
  unfold Stats.compute
  exact computeD_dark_mono _ _ x (by rw [computeC_dark]; exact hx)

theorem traceOK_mono {ev : List Event} {F D F' D' : List Host}
    (h : TraceOK ev F D) (hF : ∀ x ∈ F, x ∈ F') (hD : ∀ x ∈ D, x ∈ D') :
    TraceOK ev F' D' := by
  obtain ⟨h1, h2, h3⟩ := h
  refine ⟨h1, h2, fun s hs => ?_⟩
  exact snapLE_trans (h3 s hs) ⟨hF, hD⟩

theorem mem_addHost (l : List Host) (h x : Host) :
    x ∈ addHost l h ↔ x ∈ l ∨ x = h := by
  unfold addHost
  split <;> simp
  intro hx
  rw [hx]
  assumption

theorem computeC_goodSet (b : Bool) :
    ∀ (contacted : List (Host × HResult)) (s : Stats),
      GoodSet s → GoodSet (computeC b contacted s) := by
  intro contacted
  induction contacted with
  | nil => intro s g; exact g
  | cons p rest ih =>
    intro s g
    obtain ⟨h, res⟩ := p
    simp only [computeC]
    split
    · refine ih _ ⟨fun x hx => ?_, fun x hx => ?_⟩
      · rcases (mem_addHost _ _ _).mp hx with hx | hx
        · exact addHost_mem_mono _ _ _ (g.1 x hx)
        · rw [hx]; exact (mem_addHost _ _ _).mpr (Or.inr rfl)
      · exact addHost_mem_mono _ _ _ (g.2 x hx)
    · split
      · exact ih _ ⟨fun x hx => addHost_mem_mono _ _ _ (g.1 x hx),
          fun x hx => addHost_mem_mono _ _ _ (g.2 x hx)⟩
      · split <;>
          exact ih _ ⟨fun x hx => addHost_mem_mono _ _ _ (g.1 x hx),
            fun x hx => addHost_mem_mono _ _ _ (g.2 x hx)⟩

theorem computeD_goodSet :
    ∀ (dark : List (Host × HResult)) (s : Stats),
      GoodSet s → GoodSet (computeD dark s) := by
  intro dark
  induction dark with
  | nil => intro s g; exact g
  | cons p rest ih =>
    intro s g
    obtain ⟨h, res⟩ := p
    simp only [computeD]
    refine ih _ ⟨fun x hx => addHost_mem_mono _ _ _ (g.1 x hx),
      fun x hx => ?_⟩
    rcases (mem_addHost _ _ _).mp hx with hx | hx
    · exact addHost_mem_mono _ _ _ (g.2 x hx)
    · rw [hx]; exact (mem_addHost _ _ _).mpr (Or.inr rfl)

theorem compute_goodSet (s : Stats) (r : Results) (b : Bool)
    (g : GoodSet s) : GoodSet (s.compute r b) :=
  computeD_goodSet _ _ (computeC_goodSet b _ _ g)

theorem Step_compute (A : List (List (Host × Vars))) (st : PBState)
    (r : Results) (b : Bool) :
    Step A st { st with stats := st.stats.compute r b } := by
  refine ⟨fun x hx => compute_failures_mono _ _ _ x hx,
    fun x hx => compute_dark_mono _ _ _ x hx, fun hok => ?_,
    fun c hc => Or.inl hc, fun g => compute_goodSet _ _ _ g⟩
  exact traceOK_mono hok (fun x hx => compute_failures_mono _ _ _ x hx)
    (fun x hx => compute_dark_mono _ _ _ x hx)

theorem async_poll_loop_fst :
    ∀ (hosts : List Host) (st : PBState) (results : Results),
      (async_poll_loop hosts st results).1 =
        { st with events := st.events ++
            hosts.map (fun x => Event.on_failed x timedOutReason) } := by
  intro hosts
  induction hosts with
  | nil => intro st results; simp [async_poll_loop]
  | cons x rest ih =>
    intro st results
    simp only [async_poll_loop]
    rw [ih]
    simp [PBState.emit]

theorem run_task_internal_fst (env : Env) (play : Play) (task : Task)
    (st : PBState) :
    (run_task_internal env play task st).1 =
      (if task.async_seconds = 0 then
        ⟨st.setup_cache, st.stats, st.inventory,
          st.events ++ [task_dispatch_event st], st.calls + 1⟩
      else if task.async_poll_interval > 0 then
        ⟨st.setup_cache,
          st.stats.compute (env.get st.calls).async_initial false,
          st.inventory,
          (st.events ++ [task_dispatch_event st]) ++
            (env.get st.calls).hosts_to_poll.map
              (fun x => Event.on_failed x timedOutReason),
          st.calls + 1⟩
      else
        ⟨st.setup_cache,
          st.stats.compute (env.get st.calls).async_initial false,
          st.inventory, st.events ++ [task_dispatch_event st],
          st.calls + 1⟩) := by
  by_cases hA : task.async_seconds = 0
  · simp [run_task_internal, hA, PBState.emit, task_dispatch_event,
      working_set, Inventory.restrict_to, Inventory.lift_restriction]
  · by_cases hp : task.async_poll_interval > 0
    · simp [run_task_internal, hA, hp, async_poll, async_poll_loop_fst,
        PBState.emit, task_dispatch_event, working_set,
        Inventory.restrict_to, Inventory.lift_restriction]
    · simp [run_task_internal, hA, hp, PBState.emit, task_dispatch_event,
        working_set, Inventory.restrict_to, Inventory.lift_restriction]

theorem Step_emit_task_dispatch (A : List (List (Host × Vars)))
    (st : PBState) : Step A st (st.emit (task_dispatch_event st)) := by
  refine Step_emit_dispatch A st _ _ _ ?_
  intro h
  simp [working_set, List.mem_filter]

theorem run_task_internal_step (A : List (List (Host × Vars))) (env : Env)
    (play : Play) (task : Task) (st : PBState) :
    Step A st (run_task_internal env play task st).1 := by
  rw [run_task_internal_fst]
  by_cases hA : task.async_seconds = 0
  · rw [if_pos hA]
    exact Step.trans' (Step_emit_task_dispatch A st) (Step_same A _ _ rfl rfl)
  · rw [if_neg hA]
    by_cases hp : task.async_poll_interval > 0
    · rw [if_pos hp]
      have h1 := Step_emit_task_dispatch A st
      have h2 := Step_compute A (st.emit (task_dispatch_event st))
        (env.get st.calls).async_initial false
      have h3 : Step A
          { st.emit (task_dispatch_event st) with
            stats := (st.emit (task_dispatch_event st)).stats.compute
              (env.get st.calls).async_initial false }
          { { st.emit (task_dispatch_event st) with
              stats := (st.emit (task_dispatch_event st)).stats.compute
                (env.get st.calls).async_initial false } with
            events := ((st.emit (task_dispatch_event st)).events ++
              (env.get st.calls).hosts_to_poll.map
                (fun x => Event.on_failed x timedOutReason)) } := by
        refine Step_append_neutral A _ _ ?_
        intro e he
        simp only [List.mem_map] at he
        obtain ⟨x, _, hx⟩ := he
        rw [← hx]
        simp [neutralEvent]
      refine Step.trans' (Step.trans' (Step.trans' h1 h2) h3)
        (Step_same A _ _ ?_ ?_) <;> rfl
    · rw [if_neg hp]
      have h1 := Step_emit_task_dispatch A st
      have h2 := Step_compute A (st.emit (task_dispatch_event st))
        (env.get st.calls).async_initial false
      exact Step.trans' (Step.trans' h1 h2) (Step_same A _ _ rfl rfl)

theorem flag_handler_step (A : List (List (Host × Vars)))
    (handlers : List Task) (hname : String) (host : Host) (st : PBState) :
    Step A st (flag_handler handlers hname host st).1 := by
  rw [flag_handler_fst]
  refine Step_append_neutral A st _ ?_
  intro e he
  simp only [List.mem_map] at he
  obtain ⟨x, _, hx⟩ := he
  rw [← hx]
  simp [neutralEvent]

theorem notify_names_step (A : List (List (Host × Vars))) (tmpl : Tmpl)
    (mvars : Vars) (host : Host) :
    ∀ (names : List String) (handlers : List Task) (st : PBState),
      Step A st (notify_names tmpl mvars host names handlers st).1 := by
  intro names
  induction names with
  | nil => intro handlers st; exact Step.refl' A st
  | cons n rest ih =>
    intro handlers st
    simp only [notify_names]
    cases hr : (flag_handler handlers (tmpl n mvars) host st).2 with
    | ok handlers2 =>
      exact Step.trans' (flag_handler_step A handlers (tmpl n mvars) host st)
        (ih handlers2 _)
    | error e => exact flag_handler_step A handlers (tmpl n mvars) host st

theorem notify_hosts_step (A : List (List (Host × Vars))) (tmpl : Tmpl)
    (mvars : Vars) (names : List String) :
    ∀ (contacted : List (Host × HResult)) (handlers : List Task)
      (st : PBState),
      Step A st (notify_hosts tmpl mvars names contacted handlers st).1 := by
  intro contacted
  induction contacted with
  | nil => intro handlers st; exact Step.refl' A st
  | cons p rest ih =>
    intro handlers st
    obtain ⟨host, res⟩ := p
    simp only [notify_hosts]
    by_cases hch : res.changed.getD false
    · simp only [if_pos hch]
      cases hr : (notify_names tmpl mvars host names handlers st).2 with
      | ok handlers2 =>
        exact Step.trans' (notify_names_step A tmpl mvars host names handlers
          st) (ih handlers2 _)
      | error e => exact notify_names_step A tmpl mvars host names handlers st
    · simp only [if_neg hch]
      exact ih handlers st

theorem run_task_step (A : List (List (Host × Vars))) (env : Env)
    (tmpl : Tmpl) (play : Play) (task : Task) (ihb : Bool)
    (handlers : List Task) (st : PBState) :
    Step A st (run_task env tmpl play task ihb handlers st).1 := by
  have h12 : Step A st
      (run_task_internal env play task
        (st.emit (.on_task_start task.name ihb))).1 :=
    Step.trans' (Step_emit_neutral A st _ (by simp [neutralEvent]))
      (run_task_internal_step A env play task _)
  simp only [run_task]
  split
  · exact h12
  · next cache2 heq =>
    set X := (run_task_internal env play task
      (st.emit (Event.on_task_start task.name ihb))).1 with hX
    set R := (run_task_internal env play task
      (st.emit (Event.on_task_start task.name ihb))).2 with hR
    have h3 : Step A X
        { X with setup_cache := cache2, stats := X.stats.compute R false } :=
      Step.trans' (Step_compute A X R false) (Step_same A _ _ rfl rfl)
    split
    · exact Step.trans' h12 (Step.trans' h3
        (notify_hosts_step A tmpl task.module_vars task.notify R.contacted
          handlers _))
    · exact Step.trans' h12 h3

theorem do_setup_step_fst_primary (env : Env) (play : Play) (st : PBState) :
    (do_setup_step env play none st).1 =
      ⟨apply_facts (env.get st.calls).run_result.contacted st.setup_cache,
        st.stats.compute (env.get st.calls).run_result true,
        st.inventory,
        st.events ++ [Event.on_setup_primary st.setup_cache,
          setup_dispatch_event play st],
        st.calls + 1⟩ := by
  simp [do_setup_step, PBState.emit, setup_dispatch_event, setup_working_set,
    Inventory.restrict_to, Inventory.lift_restriction]

theorem do_setup_step_fst_secondary (env : Env) (play : Play)
    (vfl : List String) (st : PBState) :
    (do_setup_step env play (some vfl) st).1 =
      ⟨st.setup_cache,
        st.stats.compute (env.get st.calls).run_result true,
        st.inventory,
        st.events ++ [Event.on_setup_secondary, setup_dispatch_event play st],
        st.calls + 1⟩ := by
  simp [do_setup_step, PBState.emit, setup_dispatch_event, setup_working_set,
    Inventory.restrict_to, Inventory.lift_restriction]

theorem Step_emit_setup_dispatch (A : List (List (Host × Vars)))
    (play : Play) (st : PBState) :
    Step A st (st.emit (setup_dispatch_event play st)) := by
  refine Step_emit_dispatch A st _ _ _ ?_
  intro h
  simp [setup_working_set, List.mem_filter, not_or]

theorem do_setup_step_step_primary (A : List (List (Host × Vars)))
    (env : Env) (play : Play) (st : PBState) (hc : st.setup_cache ∈ A) :
    Step A st (do_setup_step env play none st).1 := by
  rw [do_setup_step_fst_primary]
  have h1 : Step A st (st.emit (.on_setup_primary st.setup_cache)) :=
    Step_emit_primary A st _ hc
  have h2 := Step_emit_setup_dispatch A play
    (st.emit (.on_setup_primary st.setup_cache))
  have h3 := Step_compute A
    ((st.emit (.on_setup_primary st.setup_cache)).emit
      (setup_dispatch_event play (st.emit (.on_setup_primary st.setup_cache))))
    (env.get st.calls).run_result true
  refine Step.trans' (Step.trans' (Step.trans' h1 h2) h3)
    (Step_same A _ _ ?_ ?_)
  · simp [PBState.emit, setup_dispatch_event, setup_working_set]
  · rfl

theorem do_setup_step_step_secondary (A : List (List (Host × Vars)))
    (env : Env) (play : Play) (vfl : List String) (st : PBState) :
    Step A st (do_setup_step env play (some vfl) st).1 := by
  rw [do_setup_step_fst_secondary]
  have h1 : Step A st (st.emit .on_setup_secondary) :=
    Step_emit_neutral A st _ (by simp [neutralEvent])
  have h2 := Step_emit_setup_dispatch A play (st.emit .on_setup_secondary)
  have h3 := Step_compute A
    ((st.emit .on_setup_secondary).emit
      (setup_dispatch_event play (st.emit .on_setup_secondary)))
    (env.get st.calls).run_result true
  refine Step.trans' (Step.trans' (Step.trans' h1 h2) h3)
    (Step_same A _ _ ?_ ?_)
  · simp [PBState.emit, setup_dispatch_event, setup_working_set]
  · rfl

theorem run_tasks_step (A : List (List (Host × Vars))) (env : Env)
    (tmpl : Tmpl) (play : Play) :
    ∀ (ts handlers : List Task) (st : PBState),
      Step A st (run_tasks env tmpl play ts handlers st).1 := by
  intro ts
  induction ts with
  | nil => intro handlers st; exact Step.refl' A st
  | cons t rest ih =>
    intro handlers st
    simp only [run_tasks]
    cases hr : (run_task env tmpl play t false handlers st).2 with
    | ok handlers2 =>
      exact Step.trans' (run_task_step A env tmpl play t false handlers st)
        (ih handlers2 _)
    | error e => exact run_task_step A env tmpl play t false handlers st

theorem run_handlers_aux_step (A : List (List (Host × Vars))) (env : Env)
    (tmpl : Tmpl) (play : Play) :
    ∀ (fuel i : Nat) (handlers : List Task) (st : PBState),
      Step A st (run_handlers_aux env tmpl play fuel i handlers st).1 := by
  intro fuel
  induction fuel with
  | zero => intro i handlers st; exact Step.refl' A st
  | succ fuel ih =>
    intro i handlers st
    simp only [run_handlers_aux]
    cases hh : handlers[i]? with
    | none => exact Step.refl' A st
    | some handler =>
      by_cases hn : handler.notified_by.length > 0
      · simp only [if_pos hn]
        set st1 : PBState :=
          { st with inventory := (st.inventory.restrict_to
            handler.notified_by) } with hst1
        have ha : Step A st st1 := Step_same A _ _ rfl rfl
        have hb := run_task_step A env tmpl play handler true handlers st1
        cases hr : (run_task env tmpl play handler true handlers st1).2 with
        | ok handlers2 =>
          have hlift : Step A
              (run_task env tmpl play handler true handlers st1).1
              { (run_task env tmpl play handler true handlers st1).1 with
                inventory := ((run_task env tmpl play handler true handlers
                  st1).1.inventory.lift_restriction) } :=
            Step_same A _ _ rfl rfl
          exact Step.trans' (Step.trans' (Step.trans' ha hb) hlift)
            (ih (i + 1) handlers2 _)
        | error e => exact Step.trans' ha hb
      · simp only [if_neg hn]
        exact ih (i + 1) handlers st

theorem run_handlers_step (A : List (List (Host × Vars))) (env : Env)
    (tmpl : Tmpl) (play : Play) (handlers : List Task) (st : PBState) :
    Step A st (run_handlers env tmpl play handlers st).1 :=
  run_handlers_aux_step A env tmpl play handlers.length 0 handlers st

theorem run_play_step (A : List (List (Host × Vars))) (env : Env)
    (tmpl : Tmpl) (play : Play) (st : PBState) (hc : st.setup_cache ∈ A) :
    Step A st (run_play env tmpl play st).1 := by
  simp only [run_play]
  have h1 : Step A st (st.emit (.on_play_start play.name)) :=
    Step_emit_neutral A st _ (by simp [neutralEvent])
  have h2 : Step A st
      (do_setup_step env play none (st.emit (.on_play_start play.name))).1 :=
    Step.trans' h1 (do_setup_step_step_primary A env play _ hc)
  have h3 : Step A st
      (if play.vars_files.length > 0 then
        (do_setup_step env play (some play.vars_files)
          (do_setup_step env play none
            (st.emit (.on_play_start play.name))).1).1
      else
        (do_setup_step env play none
          (st.emit (.on_play_start play.name))).1) := by
    by_cases hv : play.vars_files.length > 0
    · rw [if_pos hv]
      exact Step.trans' h2 (do_setup_step_step_secondary A env play _ _)
    · rw [if_neg hv]
      exact h2
  have h4 := Step.trans' h3 (run_tasks_step A env tmpl play play.tasks
    play.handlers _)
  split
  · exact h4
  · next handlers1 heq =>
    have h5 := Step.trans' h4 (run_handlers_step A env tmpl play handlers1 _)
    split
    · exact h5
    · exact h5

theorem run_plays_step (A : List (List (Host × Vars))) (env : Env)
    (tmpl : Tmpl) (h0 : [] ∈ A) :
    ∀ (plays : List Play) (st : PBState),
      Step A st (run_plays env tmpl plays st).1 := by
  intro plays
  induction plays with
  | nil => intro st; exact Step.refl' A st
  | cons p rest ih =>
    intro st
    simp only [run_plays]
    have h1 : Step A st { st with setup_cache := [] } :=
      Step_same A _ _ rfl rfl
    have h2 : Step A st (run_play env tmpl p { st with setup_cache := [] }).1 :=
      Step.trans' h1 (run_play_step A env tmpl p _ h0)
    cases hr : (run_play env tmpl p { st with setup_cache := [] }).2 with
    | ok u => exact Step.trans' h2 (ih _)
    | error e => exact h2

theorem run_step (A : List (List (Host × Vars))) (env : Env) (tmpl : Tmpl)
    (pb : List Play) (st : PBState) (h0 : [] ∈ A) :
    Step A st (run env tmpl pb st).1 := by
  simp only [run]
  have h1 : Step A st (st.emit .on_start) :=
    Step_emit_neutral A st _ (by simp [neutralEvent])
  have h2 : Step A st (run_plays env tmpl pb (st.emit .on_start)).1 :=
    Step.trans' h1 (run_plays_step A env tmpl h0 pb _)
  cases hr : (run_plays env tmpl pb (st.emit .on_start)).2 with
  | ok u => exact h2
  | error e => exact h2

/-- C1: in any run started with an empty trace, every recorded working host
set equals the inventory listing at that moment minus the failures and dark
sets at that moment (`DispatchOK`), and consequently a host that is in the
failures or dark snapshot of an earlier dispatch is never a member of the
working host set of any later dispatch (task, setup or handler). -/
theorem claimC1_host_exclusion (env : Env) (tmpl : Tmpl) (pb : List Play)
    (st0 : PBState) (h0 : st0.events = []) :
    (∀ e ∈ (run env tmpl pb st0).1.events, DispatchOK e) ∧
    (∀ (pre : List Event) (r1 : List (List Host)) (l1 w1 f1 d1 : List Host)
      (mid : List Event) (r2 : List (List Host)) (l2 w2 f2 d2 : List Host)
      (post : List Event) (x : Host),
      (run env tmpl pb st0).1.events =
        pre ++ Event.dispatch r1 l1 w1 f1 d1 ::
          (mid ++ Event.dispatch r2 l2 w2 f2 d2 :: post) →
      (x ∈ f1 ∨ x ∈ d1) → x ∉ w2) := by
  have hok0 : StOK st0 := by
    unfold StOK TraceOK
    rw [h0]
    refine ⟨by simp, ?_, by simp [snaps]⟩
    show List.Pairwise SnapLE (snaps [])
    simp [snaps]
  have hstep := run_step [[]] env tmpl pb st0 (by simp)
  have hok : StOK (run env tmpl pb st0).1 := hstep.2.2.1 hok0
  obtain ⟨hd, hp, _⟩ := hok
  refine ⟨hd, ?_⟩
  intro pre r1 l1 w1 f1 d1 mid r2 l2 w2 f2 d2 post x hsplit hx hmem
  have he2 : Event.dispatch r2 l2 w2 f2 d2 ∈ (run env tmpl pb st0).1.events := by
    rw [hsplit]
    simp
  have hd2 := hd _ he2
  rw [hsplit] at hp
  rw [snaps_append] at hp
  have hc1 : snaps (Event.dispatch r1 l1 w1 f1 d1 ::
      (mid ++ Event.dispatch r2 l2 w2 f2 d2 :: post)) =
      (f1, d1) :: snaps (mid ++ Event.dispatch r2 l2 w2 f2 d2 :: post) := rfl
  rw [hc1, snaps_append] at hp
  have hc2 : snaps (Event.dispatch r2 l2 w2 f2 d2 :: post) =
      (f2, d2) :: snaps post := rfl
  rw [hc2] at hp
  have hp2 := (List.pairwise_append.mp hp).2.1
  have hle : SnapLE (f1, d1) (f2, d2) :=
    (List.pairwise_cons.mp hp2).1 (f2, d2) (by simp)
  have hmem2 := (hd2 x).mp hmem
  rcases hx with hx | hx
  · exact hmem2.2.1 (hle.1 x hx)
  · exact hmem2.2.2 (hle.2 x hx)

/-- C3: in any run started with an empty trace, every primary setup step
observes an empty setup cache — facts never leak across plays. -/
theorem claimC3_cache_reset (env : Env) (tmpl : Tmpl) (pb : List Play)
    (st0 : PBState) (h0 : st0.events = []) :
    ∀ c, Event.on_setup_primary c ∈ (run env tmpl pb st0).1.events →
      c = [] := by
  intro c hc
  have hstep := run_step [[]] env tmpl pb st0 (by simp)
  rcases hstep.2.2.2.1 c hc with hin | hA
  · rw [h0] at hin
    simp at hin
  · simpa using hA

/-- C1 witness: in a concrete three-task run where the first task fails
host h2, the later dispatches exclude h2 — applying the exclusion theorem at
the third task's recorded dispatch. -/
theorem claimC1_witness : ("h2" : Host) ∉ (["h1"] : List Host) :=
  (claimC1_host_exclusion wEnvC1 tmplId wPbC1 (initState ["h1", "h2"])
      rfl).2
    [Event.on_start, .on_play_start "p", .on_setup_primary [],
      .dispatch [["h1", "h2"]] ["h1", "h2"] ["h1", "h2"] [] [],
      .on_task_start "t1" false,
      .dispatch [["h1", "h2"]] ["h1", "h2"] ["h1", "h2"] [] [],
      .on_task_start "t2" false]
    [["h1"]] ["h1", "h2"] ["h1"] ["h2"] []
    [Event.on_task_start "t3" false]
    [["h1"]] ["h1", "h2"] ["h1"] ["h2"] []
    [] "h2" (by rfl) (Or.inl (by decide))

/-- C3 witness: a nonempty cache snapshot never appears in a primary setup
event of a concrete two-play run, even though play 1 cached facts. -/
theorem claimC3_witness :
    Event.on_setup_primary [("h1", [("os", "linux")])] ∉
      (run wEnvC3 tmplId wPbC3 (initState ["h1"])).1.events :=
  fun hmem => absurd
    (claimC3_cache_reset wEnvC3 tmplId wPbC3 (initState ["h1"]) rfl
      [("h1", [("os", "linux")])] hmem)
    (by simp)

/-! ## Restriction pairing (`_run_task_internal` lines 158/182,
`_run_play` lines 294-298) -/

theorem run_task_internal_inventory (env : Env) (play : Play) (task : Task)
    (st : PBState) :
    (run_task_internal env play task st).1.inventory = st.inventory := by
  rw [run_task_internal_fst]
  split
  · rfl
  · split <;> rfl

theorem run_task_inventory (env : Env) (tmpl : Tmpl) (play : Play)
    (task : Task) (ihb : Bool) (handlers : List Task) (st : PBState) :
    (run_task env tmpl play task ihb handlers st).1.inventory =
      st.inventory := by
  simp only [run_task]
  split
  · rw [run_task_internal_inventory]
    rfl
  · split
    · rw [(notify_hosts_core tmpl task.module_vars task.notify _ handlers
        _).2.2.1]
      rw [show ({ (run_task_internal env play task
          (st.emit (Event.on_task_start task.name ihb))).1 with
          setup_cache := _, stats := _ } : PBState).inventory =
        (run_task_internal env play task
          (st.emit (Event.on_task_start task.name ihb))).1.inventory from rfl]
      rw [run_task_internal_inventory]
      rfl
    · rw [show ({ (run_task_internal env play task
          (st.emit (Event.on_task_start task.name ihb))).1 with
          setup_cache := _, stats := _ } : PBState).inventory =
        (run_task_internal env play task
          (st.emit (Event.on_task_start task.name ihb))).1.inventory from rfl]
      rw [run_task_internal_inventory]
      rfl

theorem run_tasks_inventory (env : Env) (tmpl : Tmpl) (play : Play) :
    ∀ (ts handlers : List Task) (st : PBState),
      (run_tasks env tmpl play ts handlers st).1.inventory = st.inventory := by
  intro ts
  induction ts with
  | nil => intro handlers st; rfl
  | cons t rest ih =>
    intro handlers st
    simp only [run_tasks]
    cases hr : (run_task env tmpl play t false handlers st).2 with
    | ok handlers2 => rw [ih, run_task_inventory]
    | error e => exact run_task_inventory env tmpl play t false handlers st

theorem do_setup_step_inventory (env : Env) (play : Play)
    (vf : Option (List String)) (st : PBState) :
    (do_setup_step env play vf st).1.inventory = st.inventory := by
  cases vf with
  | none => rw [do_setup_step_fst_primary]
  | some vfl => rw [do_setup_step_fst_secondary]

theorem run_handlers_aux_restrictions (env : Env) (tmpl : Tmpl) (play : Play) :
    ∀ (fuel i : Nat) (handlers : List Task) (st st' : PBState)
      (hs' : List Task),
      run_handlers_aux env tmpl play fuel i handlers st = (st', .ok hs') →
      st'.inventory.restrictions = st.inventory.restrictions := by
  intro fuel
  induction fuel with
  | zero =>
    intro i handlers st st' hs' heq
    simp only [run_handlers_aux] at heq
    injection heq with h1 h2
    rw [← h1]
  | succ fuel ih =>
    intro i handlers st st' hs' heq
    simp only [run_handlers_aux] at heq
    split at heq
    · injection heq with h1 h2
      rw [← h1]
    · split at heq
      · split at heq
        · rw [ih _ _ _ st' hs' heq]
          rw [run_task_inventory]
          rfl
        · injection heq with h1 h2
          injection h2
      · exact ih (i + 1) handlers st st' hs' heq

theorem run_handlers_restrictions (env : Env) (tmpl : Tmpl) (play : Play)
    (handlers : List Task) (st : PBState) (hs' : List Task)
    (hok : (run_handlers env tmpl play handlers st).2 = .ok hs') :
    (run_handlers env tmpl play handlers st).1.inventory.restrictions =
      st.inventory.restrictions := by
  refine run_handlers_aux_restrictions env tmpl play handlers.length 0
    handlers st _ hs' ?_
  rw [← hok]
  rfl

theorem run_play_restrictions_pair (env : Env) (tmpl : Tmpl) (play : Play)
    (st st' : PBState) (hok : run_play env tmpl play st = (st', .ok ())) :
    st'.inventory.restrictions = st.inventory.restrictions := by
  simp only [run_play] at hok
  split at hok
  · injection hok with h1 h2
    injection h2
  · next handlers1 heq1 =>
    split at hok <;>
      injection hok with h1 h2 <;>
      first
        | exact Except.noConfusion h2
        | (rw [← h1,
            run_handlers_restrictions env tmpl play handlers1 _ _
              (by assumption),
            run_tasks_inventory]
           by_cases hv : play.vars_files.length > 0
           · rw [if_pos hv, do_setup_step_inventory, do_setup_step_inventory]
             rfl
           · rw [if_neg hv, do_setup_step_inventory]
             rfl)

theorem run_play_restrictions (env : Env) (tmpl : Tmpl) (play : Play)
    (st : PBState) (hok : (run_play env tmpl play st).2 = .ok ()) :
    (run_play env tmpl play st).1.inventory.restrictions =
      st.inventory.restrictions := by
  refine run_play_restrictions_pair env tmpl play st _ ?_
  rw [← hok]

theorem run_plays_restrictions_pair (env : Env) (tmpl : Tmpl) :
    ∀ (plays : List Play) (st st' : PBState),
      run_plays env tmpl plays st = (st', .ok ()) →
      st'.inventory.restrictions = st.inventory.restrictions := by
  intro plays
  induction plays with
  | nil =>
    intro st st' hok
    injection hok with h1 h2
    rw [← h1]
  | cons p rest ih =>
    intro st st' hok
    simp only [run_plays] at hok
    split at hok
    · next u heq =>
      rw [ih _ _ hok]
      cases u
      exact run_play_restrictions_pair env tmpl p
        { st with setup_cache := [] } _ (by rw [← heq])
    · injection hok with h1 h2
      injection h2

theorem run_plays_restrictions (env : Env) (tmpl : Tmpl) (plays : List Play)
    (st : PBState) (hok : (run_plays env tmpl plays st).2 = .ok ()) :
    (run_plays env tmpl plays st).1.inventory.restrictions =
      st.inventory.restrictions := by
  refine run_plays_restrictions_pair env tmpl plays st _ ?_
  rw [← hok]

theorem run_restrictions_pair (env : Env) (tmpl : Tmpl) (pb : List Play)
    (st st' : PBState) (r : List (Host × Summary))
    (hok : run env tmpl pb st = (st', .ok r)) :
    st'.inventory.restrictions = st.inventory.restrictions := by
  simp only [run] at hok
  split at hok
  · next u heq =>
    injection hok with h1 h2
    rw [← h1]
    cases u
    exact run_plays_restrictions_pair env tmpl pb (st.emit .on_start) _
      (by rw [← heq])
  · injection hok with h1 h2
    injection h2

theorem run_restrictions (env : Env) (tmpl : Tmpl) (pb : List Play)
    (st : PBState) (r : List (Host × Summary))
    (hok : (run env tmpl pb st).2 = .ok r) :
    (run env tmpl pb st).1.inventory.restrictions =
      st.inventory.restrictions := by
  refine run_restrictions_pair env tmpl pb st _ r ?_
  rw [← hok]

/-- C9 (amended): on every non-raising path a restriction push is paired
with a lift — the dispatcher always restores the inventory before returning
(even when the fact merge or a notify lookup subsequently raises), and a
play, a play sequence, or a whole run that completes without error leaves
the restriction stack exactly as found, so its depth is back at zero at
every play boundary of an error-free run; an error raised while a notified
handler runs, however, escapes with the handler restriction still pushed. -/
theorem claimC9_restriction_pairing :
    (∀ (env : Env) (tmpl : Tmpl) (play : Play) (task : Task) (ihb : Bool)
      (handlers : List Task) (st : PBState),
      (run_task env tmpl play task ihb handlers st).1.inventory =
        st.inventory) ∧
    (∀ (env : Env) (tmpl : Tmpl) (play : Play) (st : PBState),
      (run_play env tmpl play st).2 = .ok () →
      (run_play env tmpl play st).1.inventory.restrictions =
        st.inventory.restrictions) ∧
    (∀ (env : Env) (tmpl : Tmpl) (plays : List Play) (st : PBState),
      (run_plays env tmpl plays st).2 = .ok () →
      (run_plays env tmpl plays st).1.inventory.restrictions =
        st.inventory.restrictions) ∧
    (∀ (env : Env) (tmpl : Tmpl) (pb : List Play) (st : PBState)
      (r : List (Host × Summary)),
      (run env tmpl pb st).2 = .ok r →
      (run env tmpl pb st).1.inventory.restrictions =
        st.inventory.restrictions) :=
  ⟨run_task_inventory, run_play_restrictions,
    fun env tmpl plays st => run_plays_restrictions env tmpl plays st,
    run_restrictions⟩

/-- C9 counterexample to "a lift on every exit path, including error
paths": a handler that itself notifies an undefined handler aborts the run
with the handler's `notified_by` restriction still pushed — the final
restriction stack depth is 1, not 0. -/
theorem claimC9_counterexample :
    (run c9Env tmplId c9Pb (initState ["h1"])).1.inventory.restrictions =
        [["h1"]] ∧
      (run c9Env tmplId c9Pb (initState ["h1"])).2 =
        .error (.ansibleError "change handler (nope) is not defined") := by
  constructor <;> rfl

/-- C9 witness: an error-free fire-and-forget run ends with the restriction
stack it started with. -/
theorem claimC9_witness :
    (run c2Env tmplId [mkPlay [c2Task] []] (initState ["h1"])).1.inventory.restrictions =
      (initState ["h1"]).inventory.restrictions :=
  claimC9_restriction_pairing.2.2.2 c2Env tmplId [mkPlay [c2Task] []]
    (initState ["h1"]) [] rfl

/-! ## Handler sequencing (`_run_play` lines 290-298) -/

theorem hsExtract_none (e : Event) (h : noTaskStart e) : hsExtract e = none := by
  cases e <;> first | rfl | exact h.elim

theorem sfExtract_none (e : Event) (h : noTaskStart e) : sfExtract e = none := by
  cases e <;> first | rfl | exact h.elim

theorem handlerStarts_append (a b : List Event) :
    handlerStarts (a ++ b) = handlerStarts a ++ handlerStarts b :=
  List.filterMap_append ..

theorem startFlags_append (a b : List Event) :
    startFlags (a ++ b) = startFlags a ++ startFlags b :=
  List.filterMap_append ..

theorem handlerStarts_nil (Δ : List Event) (h : ∀ e ∈ Δ, noTaskStart e) :
    handlerStarts Δ = [] := by
  rw [handlerStarts, List.filterMap_eq_nil_iff]
  intro a ha
  exact hsExtract_none a (h a ha)

theorem startFlags_nil (Δ : List Event) (h : ∀ e ∈ Δ, noTaskStart e) :
    startFlags Δ = [] := by
  rw [startFlags, List.filterMap_eq_nil_iff]
  intro a ha
  exact sfExtract_none a (h a ha)

theorem handlerStarts_cons_start (n : String) (b : Bool) (Δ : List Event) :
    handlerStarts (Event.on_task_start n b :: Δ) =
      (if b then [n] else []) ++ handlerStarts Δ := by
  cases b <;> simp [handlerStarts, List.filterMap_cons, hsExtract]

theorem startFlags_cons_start (n : String) (b : Bool) (Δ : List Event) :
    startFlags (Event.on_task_start n b :: Δ) = b :: startFlags Δ := by
  simp [startFlags, List.filterMap_cons, sfExtract]

theorem handlerStarts_cons_of (e : Event) (Δ : List Event)
    (h : noTaskStart e) :
    handlerStarts (e :: Δ) = handlerStarts Δ := by
  simp [handlerStarts, List.filterMap_cons, hsExtract_none e h]

theorem startFlags_cons_of (e : Event) (Δ : List Event) (h : noTaskStart e) :
    startFlags (e :: Δ) = startFlags Δ := by
  simp [startFlags, List.filterMap_cons, sfExtract_none e h]

theorem notify_names_events (tmpl : Tmpl) (mvars : Vars) (host : Host) :
    ∀ (names : List String) (handlers : List Task) (st : PBState),
      ∃ Δ, (notify_names tmpl mvars host names handlers st).1.events =
        st.events ++ Δ ∧ ∀ e ∈ Δ, noTaskStart e := by
  intro names
  induction names with
  | nil => intro handlers st; exact ⟨[], by rw [List.append_nil]; rfl, by simp⟩
  | cons n rest ih =>
    intro handlers st
    simp only [notify_names]
    cases hr : (flag_handler handlers (tmpl n mvars) host st).2 with
    | ok handlers2 =>
      obtain ⟨Δ2, h2, hn2⟩ := ih handlers2
        (flag_handler handlers (tmpl n mvars) host st).1
      refine ⟨(handlers.filter (fun x => decide (x.name = tmpl n mvars))).map
        (fun x => Event.on_notify host x.name) ++ Δ2, ?_, ?_⟩
      · rw [h2, flag_handler_fst]
        simp
      · intro e he
        rcases List.mem_append.mp he with he | he
        · obtain ⟨x, _, hx⟩ := List.mem_map.mp he
          rw [← hx]
          simp [noTaskStart]
        · exact hn2 e he
    | error e2 =>
      refine ⟨(handlers.filter (fun x => decide (x.name = tmpl n mvars))).map
        (fun x => Event.on_notify host x.name), ?_, ?_⟩
      · rw [flag_handler_fst]
      · intro e he
        obtain ⟨x, _, hx⟩ := List.mem_map.mp he
        rw [← hx]
        simp [noTaskStart]

theorem notify_hosts_events (tmpl : Tmpl) (mvars : Vars) (names : List String) :
    ∀ (contacted : List (Host × HResult)) (handlers : List Task)
      (st : PBState),
      ∃ Δ, (notify_hosts tmpl mvars names contacted handlers st).1.events =
        st.events ++ Δ ∧ ∀ e ∈ Δ, noTaskStart e := by
  intro contacted
  induction contacted with
  | nil => intro handlers st; exact ⟨[], by rw [List.append_nil]; rfl, by simp⟩
  | cons p rest ih =>
    intro handlers st
    obtain ⟨host, res⟩ := p
    simp only [notify_hosts]
    by_cases hch : res.changed.getD false
    · simp only [if_pos hch]
      cases hr : (notify_names tmpl mvars host names handlers st).2 with
      | ok handlers2 =>
        obtain ⟨Δ1, h1, hn1⟩ := notify_names_events tmpl mvars host names
          handlers st
        obtain ⟨Δ2, h2, hn2⟩ := ih handlers2
          (notify_names tmpl mvars host names handlers st).1
        refine ⟨Δ1 ++ Δ2, ?_, ?_⟩
        · rw [h2, h1, List.append_assoc]
        · intro e he
          rcases List.mem_append.mp he with he | he
          · exact hn1 e he
          · exact hn2 e he
      | error e2 => exact notify_names_events tmpl mvars host names handlers st
    · simp only [if_neg hch]
      exact ih handlers st

theorem run_task_events (env : Env) (tmpl : Tmpl) (play : Play) (task : Task)
    (ihb : Bool) (handlers : List Task) (st : PBState) :
    ∃ Δ, (run_task env tmpl play task ihb handlers st).1.events =
      st.events ++ Event.on_task_start task.name ihb ::
        task_dispatch_event (st.emit (.on_task_start task.name ihb)) :: Δ ∧
      ∀ e ∈ Δ, noTaskStart e := by
  have hrti : ∃ Δ1,
      (run_task_internal env play task
        (st.emit (.on_task_start task.name ihb))).1.events =
        st.events ++ Event.on_task_start task.name ihb ::
          task_dispatch_event (st.emit (.on_task_start task.name ihb)) ::
            Δ1 ∧
        ∀ e ∈ Δ1, noTaskStart e := by
    rw [run_task_internal_fst]
    split
    · exact ⟨[], by simp [PBState.emit], by simp⟩
    · split
      · refine ⟨(env.get
          (st.emit (.on_task_start task.name ihb)).calls).hosts_to_poll.map
            (fun x => Event.on_failed x timedOutReason), ?_, ?_⟩
        · simp [PBState.emit]
        · intro e he
          obtain ⟨x, _, hx⟩ := List.mem_map.mp he
          rw [← hx]
          simp [noTaskStart]
      · exact ⟨[], by simp [PBState.emit], by simp⟩
  obtain ⟨Δ1, h1, hn1⟩ := hrti
  simp only [run_task]
  split
  · exact ⟨Δ1, h1, hn1⟩
  · next cache2 heq =>
    split
    · obtain ⟨Δ2, h2, hn2⟩ := notify_hosts_events tmpl task.module_vars
        task.notify
        (run_task_internal env play task
          (st.emit (.on_task_start task.name ihb))).2.contacted handlers
        { (run_task_internal env play task
            (st.emit (.on_task_start task.name ihb))).1 with
          setup_cache := cache2,
          stats := ((run_task_internal env play task
            (st.emit (.on_task_start task.name ihb))).1.stats.compute
              (run_task_internal env play task
                (st.emit (.on_task_start task.name ihb))).2 false) }
      refine ⟨Δ1 ++ Δ2, ?_, ?_⟩
      · rw [h2]
        show (run_task_internal env play task
          (st.emit (.on_task_start task.name ihb))).1.events ++ Δ2 = _
        rw [h1]
        simp
      · intro e he
        rcases List.mem_append.mp he with he | he
        · exact hn1 e he
        · exact hn2 e he
    · exact ⟨Δ1, h1, hn1⟩

theorem handlerStarts_run_task (env : Env) (tmpl : Tmpl) (play : Play)
    (task : Task) (ihb : Bool) (handlers : List Task) (st : PBState) :
    handlerStarts (run_task env tmpl play task ihb handlers st).1.events =
      handlerStarts st.events ++ (if ihb then [task.name] else []) := by
  obtain ⟨Δ, hev, hΔ⟩ := run_task_events env tmpl play task ihb handlers st
  rw [hev, handlerStarts_append, handlerStarts_cons_start,
    handlerStarts_cons_of _ _ (by simp [task_dispatch_event, noTaskStart]),
    handlerStarts_nil Δ hΔ]
  simp

theorem startFlags_run_task (env : Env) (tmpl : Tmpl) (play : Play)
    (task : Task) (ihb : Bool) (handlers : List Task) (st : PBState) :
    startFlags (run_task env tmpl play task ihb handlers st).1.events =
      startFlags st.events ++ [ihb] := by
  obtain ⟨Δ, hev, hΔ⟩ := run_task_events env tmpl play task ihb handlers st
  rw [hev, startFlags_append, startFlags_cons_start,
    startFlags_cons_of _ _ (by simp [task_dispatch_event, noTaskStart]),
    startFlags_nil Δ hΔ]

theorem run_task_ok_no_notify (env : Env) (tmpl : Tmpl) (play : Play)
    (task : Task) (ihb : Bool) (handlers : List Task) (st : PBState)
    (hn : task.notify = []) (hs2 : List Task)
    (h : (run_task env tmpl play task ihb handlers st).2 = .ok hs2) :
    hs2 = handlers := by
  simp only [run_task] at h
  split at h
  · injection h
  · split at h
    · next hlen => rw [hn] at hlen; simp at hlen
    · injection h with h1
      exact h1.symm

theorem run_handlers_aux_events_extend (env : Env) (tmpl : Tmpl)
    (play : Play) :
    ∀ (fuel i : Nat) (handlers : List Task) (st : PBState),
      ∃ Δ, (run_handlers_aux env tmpl play fuel i handlers st).1.events =
        st.events ++ Δ := by
  intro fuel
  induction fuel with
  | zero => intro i handlers st; exact ⟨[], by rw [List.append_nil]; rfl⟩
  | succ fuel ih =>
    intro i handlers st
    simp only [run_handlers_aux]
    split
    · exact ⟨[], by rw [List.append_nil]⟩
    · next handler hh =>
      split
      · set ST1 : PBState := { st with inventory := (st.inventory.restrict_to
          handler.notified_by) } with hST1
        obtain ⟨Δ1, h1, _⟩ := run_task_events env tmpl play handler true
          handlers ST1
        split
        · next handlers2 hrt =>
          obtain ⟨Δ2, h2⟩ := ih (i + 1) handlers2
            { (run_task env tmpl play handler true handlers ST1).1 with
              inventory := ((run_task env tmpl play handler true handlers
                ST1).1.inventory.lift_restriction) }
          refine ⟨Event.on_task_start handler.name true ::
            task_dispatch_event (ST1.emit (.on_task_start handler.name true))
              :: (Δ1 ++ Δ2), ?_⟩
          rw [h2]
          show (run_task env tmpl play handler true handlers ST1).1.events ++
            Δ2 = _
          rw [h1]
          show (st.events ++ _ :: _ :: Δ1) ++ Δ2 = _
          simp
        · next e hrt =>
          refine ⟨Event.on_task_start handler.name true ::
            task_dispatch_event (ST1.emit (.on_task_start handler.name true))
              :: Δ1, ?_⟩
          rw [h1]
      · exact ih (i + 1) handlers st

theorem run_handlers_all_empty (env : Env) (tmpl : Tmpl) (play : Play) :
    ∀ (fuel i : Nat) (handlers : List Task) (st : PBState),
      (∀ x ∈ handlers, x.notified_by = []) →
      run_handlers_aux env tmpl play fuel i handlers st = (st, .ok handlers) := by
  intro fuel
  induction fuel with
  | zero => intro i handlers st _; rfl
  | succ fuel ih =>
    intro i handlers st hall
    simp only [run_handlers_aux]
    split
    · rfl
    · next handler hh =>
      rw [if_neg]
      · exact ih (i + 1) handlers st hall
      · rw [hall handler (List.getElem?_mem hh)]
        simp

theorem drop_cons_of_getElem {α : Type} (l : List α) (i : Nat) (a : α)
    (h : l[i]? = some a) : l.drop i = a :: l.drop (i + 1) := by
  have hlt : i < l.length := by
    by_contra hge
    rw [List.getElem?_eq_none (by omega)] at h
    cases h
  rw [List.drop_eq_getElem_cons hlt]
  rw [List.getElem?_eq_getElem hlt] at h
  injection h with h1
  rw [h1]

theorem run_handlers_aux_starts (env : Env) (tmpl : Tmpl) (play : Play) :
    ∀ (fuel i : Nat) (handlers : List Task) (st st' : PBState)
      (hs' : List Task),
      (∀ x ∈ handlers, x.notify = []) →
      run_handlers_aux env tmpl play fuel i handlers st = (st', .ok hs') →
      handlerStarts st'.events = handlerStarts st.events ++
        (((handlers.drop i).take fuel).filter
          (fun h => decide (h.notified_by.length > 0))).map
            (fun h => h.name) := by
  intro fuel
  induction fuel with
  | zero =>
    intro i handlers st st' hs' _ heq
    injection heq with h1 h2
    rw [← h1]
    simp
  | succ fuel ih =>
    intro i handlers st st' hs' hnn heq
    simp only [run_handlers_aux] at heq
    split at heq
    · next hh =>
      injection heq with h1 h2
      rw [← h1]
      rw [List.drop_eq_nil_of_le (List.getElem?_eq_none_iff.mp hh)]
      simp
    · next handler hh =>
      have hdrop := drop_cons_of_getElem handlers i handler hh
      split at heq
      · next hlen =>
        split at heq
        · next handlers2 hrt =>
          have h2eq : handlers2 = handlers :=
            run_task_ok_no_notify env tmpl play handler true handlers _
              (hnn handler (List.getElem?_mem hh)) handlers2 hrt
          rw [h2eq] at heq
          have hih := ih (i + 1) handlers _ st' hs' hnn heq
          have hb : handlerStarts
              ({ (run_task env tmpl play handler true handlers
                { st with inventory := (st.inventory.restrict_to
                  handler.notified_by) }).1 with
                inventory := ((run_task env tmpl play handler true handlers
                  { st with inventory := (st.inventory.restrict_to
                    handler.notified_by) }).1.inventory.lift_restriction) }
                : PBState).events =
              handlerStarts st.events ++ [handler.name] :=
            handlerStarts_run_task env tmpl play handler true handlers
              { st with inventory := (st.inventory.restrict_to
                handler.notified_by) }
          rw [hih, hb, hdrop, List.take_succ_cons,
            List.filter_cons_of_pos (by simpa using hlen), List.map_cons]
          simp
        · next e hrt =>
          injection heq with h1 h2
          injection h2
      · next hlen =>
        have hih := ih (i + 1) handlers st st' hs' hnn heq
        rw [hih, hdrop, List.take_succ_cons,
          List.filter_cons_of_neg (by simpa using hlen)]

theorem run_handlers_aux_restricted (env : Env) (tmpl : Tmpl) (play : Play)
    (fuel i : Nat) (handlers : List Task) (st : PBState) (handler : Task)
    (hh : handlers[i]? = some handler)
    (hn : handler.notified_by.length > 0) :
    ∃ w l f d Δ,
      (run_handlers_aux env tmpl play (fuel + 1) i handlers st).1.events =
        st.events ++ Event.on_task_start handler.name true ::
          Event.dispatch
            (w :: handler.notified_by :: st.inventory.restrictions)
            l w f d :: Δ := by
  simp only [run_handlers_aux]
  split
  · next hnone => rw [hh] at hnone; cases hnone
  · next handler2 hh2 =>
    rw [hh] at hh2
    injection hh2 with he
    subst he
    rw [if_pos hn]
    set ST1 : PBState := { st with inventory := (st.inventory.restrict_to
      handler.notified_by) } with hST1
    obtain ⟨Δ1, h1, _⟩ := run_task_events env tmpl play handler true
      handlers ST1
    have htde : task_dispatch_event
        (ST1.emit (.on_task_start handler.name true)) =
        Event.dispatch
          ((working_set (ST1.emit (.on_task_start handler.name true))) ::
            handler.notified_by :: st.inventory.restrictions)
          ((ST1.emit (.on_task_start handler.name true)).inventory.list_hosts
            none)
          (working_set (ST1.emit (.on_task_start handler.name true)))
          st.stats.failures st.stats.dark := rfl
    split
    · next handlers2 hrt =>
      obtain ⟨Δ2, h2⟩ := run_handlers_aux_events_extend env tmpl play fuel
        (i + 1) handlers2
        { (run_task env tmpl play handler true handlers ST1).1 with
          inventory := ((run_task env tmpl play handler true handlers
            ST1).1.inventory.lift_restriction) }
      refine ⟨working_set (ST1.emit (.on_task_start handler.name true)),
        (ST1.emit (.on_task_start handler.name true)).inventory.list_hosts
          none, st.stats.failures, st.stats.dark, Δ1 ++ Δ2, ?_⟩
      rw [h2]
      show (run_task env tmpl play handler true handlers ST1).1.events ++
        Δ2 = _
      rw [h1, ← htde]
      show (st.events ++ _ :: _ :: Δ1) ++ Δ2 = _
      simp
    · next e hrt =>
      refine ⟨working_set (ST1.emit (.on_task_start handler.name true)),
        (ST1.emit (.on_task_start handler.name true)).inventory.list_hosts
          none, st.stats.failures, st.stats.dark, Δ1, ?_⟩
      rw [h1, ← htde]

theorem run_handlers_aux_flags (env : Env) (tmpl : Tmpl) (play : Play) :
    ∀ (fuel i : Nat) (handlers : List Task) (st st' : PBState)
      (hs' : List Task),
      run_handlers_aux env tmpl play fuel i handlers st = (st', .ok hs') →
      ∃ K, startFlags st'.events =
        startFlags st.events ++ List.replicate K true := by
  intro fuel
  induction fuel with
  | zero =>
    intro i handlers st st' hs' heq
    injection heq with h1 h2
    rw [← h1]
    exact ⟨0, by simp⟩
  | succ fuel ih =>
    intro i handlers st st' hs' heq
    simp only [run_handlers_aux] at heq
    split at heq
    · injection heq with h1 h2
      rw [← h1]
      exact ⟨0, by simp⟩
    · next handler hh =>
      split at heq
      · split at heq
        · next handlers2 hrt =>
          obtain ⟨K, hK⟩ := ih (i + 1) handlers2 _ st' hs' heq
          have hb : startFlags
              ({ (run_task env tmpl play handler true handlers
                { st with inventory := (st.inventory.restrict_to
                  handler.notified_by) }).1 with
                inventory := ((run_task env tmpl play handler true handlers
                  { st with inventory := (st.inventory.restrict_to
                    handler.notified_by) }).1.inventory.lift_restriction) }
                : PBState).events =
              startFlags st.events ++ [true] :=
            startFlags_run_task env tmpl play handler true handlers
              { st with inventory := (st.inventory.restrict_to
                handler.notified_by) }
          refine ⟨K + 1, ?_⟩
          rw [hK, hb]
          simp [List.replicate_succ]
        · next e hrt =>
          injection heq with h1 h2
          injection h2
      · exact ih (i + 1) handlers st st' hs' heq

theorem run_tasks_startFlags (env : Env) (tmpl : Tmpl) (play : Play) :
    ∀ (ts handlers : List Task) (st st' : PBState) (hs' : List Task),
      run_tasks env tmpl play ts handlers st = (st', .ok hs') →
      startFlags st'.events =
        startFlags st.events ++ List.replicate ts.length false := by
  intro ts
  induction ts with
  | nil =>
    intro handlers st st' hs' heq
    injection heq with h1 h2
    rw [← h1]
    simp
  | cons t rest ih =>
    intro handlers st st' hs' heq
    simp only [run_tasks] at heq
    split at heq
    · next handlers2 hrt =>
      have hih := ih handlers2 _ st' hs' heq
      rw [hih, startFlags_run_task]
      simp [List.replicate_succ]
    · injection heq with h1 h2
      injection h2

theorem startFlags_do_setup (env : Env) (play : Play)
    (vf : Option (List String)) (st : PBState) :
    startFlags (do_setup_step env play vf st).1.events =
      startFlags st.events := by
  cases vf with
  | none =>
    rw [do_setup_step_fst_primary]
    show startFlags (st.events ++ [Event.on_setup_primary st.setup_cache,
      setup_dispatch_event play st]) = _
    rw [startFlags_append]
    show startFlags st.events ++ [] = _
    rw [List.append_nil]
  | some vfl =>
    rw [do_setup_step_fst_secondary]
    show startFlags (st.events ++ [Event.on_setup_secondary,
      setup_dispatch_event play st]) = _
    rw [startFlags_append]
    show startFlags st.events ++ [] = _
    rw [List.append_nil]

theorem startFlags_emit_play_start (st : PBState) (n : String) :
    startFlags (st.emit (.on_play_start n)).events = startFlags st.events := by
  show startFlags (st.events ++ [Event.on_play_start n]) = _
  rw [startFlags_append]
  show startFlags st.events ++ [] = _
  rw [List.append_nil]

theorem run_tasks_flags (env : Env) (tmpl : Tmpl) (play : Play)
    (ts handlers : List Task) (st : PBState) (hs' : List Task)
    (h : (run_tasks env tmpl play ts handlers st).2 = .ok hs') :
    startFlags (run_tasks env tmpl play ts handlers st).1.events =
      startFlags st.events ++ List.replicate ts.length false := by
  refine run_tasks_startFlags env tmpl play ts handlers st _ hs' ?_
  rw [← h]

theorem run_handlers_flags (env : Env) (tmpl : Tmpl) (play : Play)
    (handlers : List Task) (st : PBState) (hs' : List Task)
    (h : (run_handlers env tmpl play handlers st).2 = .ok hs') :
    ∃ K, startFlags (run_handlers env tmpl play handlers st).1.events =
      startFlags st.events ++ List.replicate K true := by
  refine run_handlers_aux_flags env tmpl play handlers.length 0 handlers st
    _ hs' ?_
  rw [← h]
  rfl

theorem run_play_flags (env : Env) (tmpl : Tmpl) (play : Play) (st : PBState)
    (hok : (run_play env tmpl play st).2 = .ok ()) :
    ∃ K, startFlags (run_play env tmpl play st).1.events =
      startFlags st.events ++ (List.replicate play.tasks.length false ++
        List.replicate K true) := by
  simp only [run_play] at hok ⊢
  split at hok
  · injection hok
  · next handlers1 heq1 =>
    revert hok
    split
    · intro hok
      cases hok
    · next u heqH =>
      intro _
      obtain ⟨K, hK⟩ := run_handlers_flags env tmpl play handlers1 _ _ heqH
      refine ⟨K, ?_⟩
      simp only
      rw [hK, run_tasks_flags env tmpl play play.tasks play.handlers _
        handlers1 heq1]
      by_cases hv : play.vars_files.length > 0
      · rw [if_pos hv] at heq1 hK ⊢
        rw [startFlags_do_setup, startFlags_do_setup,
          startFlags_emit_play_start]
        simp
      · rw [if_neg hv] at heq1 hK ⊢
        rw [startFlags_do_setup, startFlags_emit_play_start]
        simp

theorem run_handlers_aux_lift_step (env : Env) (tmpl : Tmpl) (play : Play)
    (fuel i : Nat) (handlers handlers2 : List Task) (st : PBState)
    (handler : Task) (hh : handlers[i]? = some handler)
    (hn : handler.notified_by.length > 0)
    (hok : (run_task env tmpl play handler true handlers
      { st with inventory := st.inventory.restrict_to handler.notified_by }).2
      = .ok handlers2) :
    run_handlers_aux env tmpl play (fuel + 1) i handlers st =
      run_handlers_aux env tmpl play fuel (i + 1) handlers2
        { (run_task env tmpl play handler true handlers
            { st with inventory :=
              st.inventory.restrict_to handler.notified_by }).1
          with inventory := (run_task env tmpl play handler true handlers
            { st with inventory :=
              st.inventory.restrict_to handler.notified_by
            }).1.inventory.lift_restriction } := by
  simp only [run_handlers_aux, hh]
  rw [if_pos hn]
  rw [hok]

/-- C7: after all tasks of a play have run, handlers are processed in
declaration order — an error-free play's trace is some number of non-handler
task starts (one per task) followed only by handler runs; a handler runs iff
its `notified_by` is non-empty at visit time (with handlers that notify no
further handlers, the handler names run are exactly the declaration-order
names of the handlers with non-empty `notified_by`, and a handler list with
all-empty `notified_by` leaves the state untouched); when a handler runs,
its dispatch is recorded under the inventory restricted to its `notified_by`
(pushed on the restriction stack); and the restriction is lifted afterwards:
the handler loop continues from a state whose inventory equals the inventory
before the handler's push. -/
theorem claimC7_handler_sequencing :
    (∀ (env : Env) (tmpl : Tmpl) (play : Play) (handlers : List Task)
      (st : PBState) (hs' : List Task),
      (∀ x ∈ handlers, x.notify = []) →
      (run_handlers env tmpl play handlers st).2 = .ok hs' →
      handlerStarts (run_handlers env tmpl play handlers st).1.events =
        handlerStarts st.events ++
          ((handlers.filter (fun h => decide (h.notified_by.length > 0))).map
            (fun h => h.name))) ∧
    (∀ (env : Env) (tmpl : Tmpl) (play : Play) (handlers : List Task)
      (st : PBState),
      (∀ x ∈ handlers, x.notified_by = []) →
      run_handlers env tmpl play handlers st = (st, .ok handlers)) ∧
    (∀ (env : Env) (tmpl : Tmpl) (play : Play) (fuel i : Nat)
      (handlers : List Task) (st : PBState) (handler : Task),
      handlers[i]? = some handler →
      handler.notified_by.length > 0 →
      ∃ w l f d Δ,
        (run_handlers_aux env tmpl play (fuel + 1) i handlers st).1.events =
          st.events ++ Event.on_task_start handler.name true ::
            Event.dispatch
              (w :: handler.notified_by :: st.inventory.restrictions)
              l w f d :: Δ) ∧
    (∀ (env : Env) (tmpl : Tmpl) (play : Play) (st : PBState),
      (run_play env tmpl play st).2 = .ok () →
      ∃ K, startFlags (run_play env tmpl play st).1.events =
        startFlags st.events ++ (List.replicate play.tasks.length false ++
          List.replicate K true)) ∧
    (∀ (env : Env) (tmpl : Tmpl) (play : Play) (fuel i : Nat)
      (handlers handlers2 : List Task) (st : PBState) (handler : Task),
      handlers[i]? = some handler →
      handler.notified_by.length > 0 →
      (run_task env tmpl play handler true handlers
        { st with inventory :=
          st.inventory.restrict_to handler.notified_by }).2 =
        .ok handlers2 →
      ∃ stMid : PBState,
        run_handlers_aux env tmpl play (fuel + 1) i handlers st =
          run_handlers_aux env tmpl play fuel (i + 1) handlers2 stMid ∧
        stMid.inventory = st.inventory) := by
  refine ⟨?_, ?_, ?_, ?_, ?_⟩
  · intro env tmpl play handlers st hs' hnn hok
    have := run_handlers_aux_starts env tmpl play handlers.length 0 handlers
      st _ hs' hnn (by rw [← hok]; rfl)
    rw [List.drop_zero, List.take_length] at this
    exact this
  · intro env tmpl play handlers st hall
    exact run_handlers_all_empty env tmpl play handlers.length 0 handlers st
      hall
  · intro env tmpl play fuel i handlers st handler hh hn
    exact run_handlers_aux_restricted env tmpl play fuel i handlers st
      handler hh hn
  · intro env tmpl play st hok
    exact run_play_flags env tmpl play st hok
  · intro env tmpl play fuel i handlers handlers2 st handler hh hn hok
    refine ⟨_, run_handlers_aux_lift_step env tmpl play fuel i handlers
      handlers2 st handler hh hn hok, ?_⟩
    show (run_task env tmpl play handler true handlers
      { st with inventory := st.inventory.restrict_to handler.notified_by
      }).1.inventory.lift_restriction = st.inventory
    rw [run_task_inventory]
    rfl

/-- C7 witness: a concrete play whose task notifies one handler — the
handler phase runs exactly that handler, under its `notified_by`
restriction, after the single task, and the loop continues from a state
whose inventory equals the pre-push inventory (restriction lifted); an
unnotified handler list is a no-op. -/
theorem claimC7_witness :
    (handlerStarts (run_handlers w7Env tmplId w7Play [w7Notified]
        (initState ["h1"])).1.events =
      handlerStarts (initState ["h1"]).events ++
        (([w7Notified].filter
          (fun h => decide (h.notified_by.length > 0))).map
            (fun h => h.name))) ∧
    run_handlers w7Env tmplId w7Play [w7H] (initState ["h1"]) =
      (initState ["h1"], .ok [w7H]) ∧
    (∃ w l f d Δ,
      (run_handlers_aux w7Env tmplId w7Play 1 0 [w7Notified]
        (initState ["h1"])).1.events =
        (initState ["h1"]).events ++
          Event.on_task_start w7Notified.name true ::
            Event.dispatch (w :: w7Notified.notified_by ::
              (initState ["h1"]).inventory.restrictions) l w f d :: Δ) ∧
    (∃ K, startFlags (run_play w7Env tmplId w7Play
        (initState ["h1"])).1.events =
      startFlags (initState ["h1"]).events ++
        (List.replicate w7Play.tasks.length false ++
          List.replicate K true)) ∧
    (∃ stMid : PBState,
      run_handlers_aux w7Env tmplId w7Play 1 0 [w7Notified]
          (initState ["h1"]) =
        run_handlers_aux w7Env tmplId w7Play 0 1 [w7Notified] stMid ∧
      stMid.inventory = (initState ["h1"]).inventory) :=
  ⟨claimC7_handler_sequencing.1 w7Env tmplId w7Play [w7Notified]
      (initState ["h1"]) [w7Notified] (by decide) rfl,
    claimC7_handler_sequencing.2.1 w7Env tmplId w7Play [w7H]
      (initState ["h1"]) (by decide),
    claimC7_handler_sequencing.2.2.1 w7Env tmplId w7Play 0 0 [w7Notified]
      (initState ["h1"]) w7Notified rfl (by decide),
    claimC7_handler_sequencing.2.2.2.1 w7Env tmplId w7Play (initState ["h1"])
      rfl,
    claimC7_handler_sequencing.2.2.2.2 w7Env tmplId w7Play 0 0 [w7Notified]
      [w7Notified] (initState ["h1"]) w7Notified rfl (by decide) (by rfl)⟩

theorem getA_map_self (l : List Host) (f : Host → Summary) (h : Host)
    (hm : h ∈ l) : getA (l.map (fun x => (x, f x))) h = some (f h) := by
  induction l with
  | nil => cases hm
  | cons x rest ih =>
    simp only [List.map_cons, getA]
    by_cases hx : x = h
    · subst hx
      rw [if_pos rfl]
    · rw [if_neg hx]
      rcases List.mem_cons.mp hm with h1 | h1
      · exact absurd h1.symm hx
      · exact ih h1

theorem mem_setA {α : Type} (k : String) (v : α) :
    ∀ (l : List (String × α)) (p : String × α), p ∈ setA l k v →
      p = (k, v) ∨ p ∈ l := by
  intro l
  induction l with
  | nil =>
    intro p hp
    simp only [setA, List.mem_singleton] at hp
    exact Or.inl hp
  | cons q rest ih =>
    intro p hp
    obtain ⟨k', v'⟩ := q
    simp only [setA] at hp
    by_cases hk : k' = k
    · rw [if_pos hk] at hp
      rcases List.mem_cons.mp hp with h1 | h1
      · exact Or.inl h1
      · exact Or.inr (List.mem_cons.mpr (Or.inr h1))
    · rw [if_neg hk] at hp
      rcases List.mem_cons.mp hp with h1 | h1
      · exact Or.inr (List.mem_cons.mpr (Or.inl h1))
      · rcases ih p h1 with h2 | h2
        · exact Or.inl h2
        · exact Or.inr (List.mem_cons.mpr (Or.inr h2))

theorem async_poll_loop_nofacts :
    ∀ (hosts : List Host) (st : PBState) (r : Results),
      (∀ p ∈ r.contacted, p.2.ansible_facts = none) →
      ∀ p ∈ (async_poll_loop hosts st r).2.contacted,
        p.2.ansible_facts = none := by
  intro hosts
  induction hosts with
  | nil => intro st r h p hp; exact h p hp
  | cons x rest ih =>
    intro st r h p hp
    simp only [async_poll_loop] at hp
    refine ih _ _ ?_ p hp
    intro q hq
    rcases mem_setA x timedOutReason r.contacted q hq with h1 | h1
    · rw [h1]; rfl
    · exact h q h1

theorem env_get_nofacts (env : Env) (henv : EnvNoFacts env) (i : Nat) :
    NoFactsR (env.get i).run_result ∧ NoFactsR (env.get i).async_initial ∧
      NoFactsR (env.get i).poll_result := by
  cases hg : env.outcomes[i]? with
  | none =>
    have he : env.get i = RunnerOutcome.empty := by
      simp [Env.get, List.getD_eq_getElem?_getD, hg]
    rw [he]
    refine ⟨?_, ?_, ?_⟩ <;> (intro p hp; simp [RunnerOutcome.empty] at hp)
  | some o =>
    have he : env.get i = o := by
      simp [Env.get, List.getD_eq_getElem?_getD, hg]
    rw [he]
    exact henv o (List.getElem?_mem hg)

theorem run_task_internal_nofacts (env : Env) (play : Play) (task : Task)
    (st : PBState) (henv : EnvNoFacts env) :
    ∀ p ∈ (run_task_internal env play task st).2.contacted,
      p.2.ansible_facts = none := by
  obtain ⟨h1, h2, h3⟩ := env_get_nofacts env henv st.calls
  by_cases hA : task.async_seconds = 0
  · intro p hp
    simp only [run_task_internal, hA, if_true] at hp
    exact h1 p hp
  · by_cases hp0 : task.async_poll_interval > 0
    · intro p hp
      simp [run_task_internal, hA, hp0, async_poll] at hp
      exact async_poll_loop_nofacts _ _ _ h3 p hp
    · intro p hp
      simp [run_task_internal, hA, hp0] at hp
      exact h2 p hp

theorem run_task_ok_nofacts (env : Env) (tmpl : Tmpl) (play : Play)
    (task : Task) (ihb : Bool) (handlers : List Task) (st : PBState)
    (henv : EnvNoFacts env) (hn : task.notify = []) :
    (run_task env tmpl play task ihb handlers st).2 = .ok handlers := by
  have hf := run_task_internal_nofacts env play task
    (st.emit (.on_task_start task.name ihb)) henv
  have hm : merge_facts
      (run_task_internal env play task
        (st.emit (.on_task_start task.name ihb))).1.setup_cache
      (run_task_internal env play task
        (st.emit (.on_task_start task.name ihb))).2.contacted =
      .ok (run_task_internal env play task
        (st.emit (.on_task_start task.name ihb))).1.setup_cache :=
    merge_facts_no_facts _ _ hf
  simp [run_task, hm, hn]

theorem run_tasks_ok_nofacts (env : Env) (tmpl : Tmpl) (play : Play)
    (henv : EnvNoFacts env) :
    ∀ (ts handlers : List Task) (st : PBState),
      (∀ t ∈ ts, t.notify = []) →
      (run_tasks env tmpl play ts handlers st).2 = .ok handlers := by
  intro ts
  induction ts with
  | nil => intro handlers st _; rfl
  | cons t rest ih =>
    intro handlers st h
    have h1 := run_task_ok_nofacts env tmpl play t false handlers st henv
      (h t (by simp))
    simp only [run_tasks]
    rw [h1]
    exact ih handlers _ (fun x hx => h x (by simp [hx]))

theorem run_handlers_aux_ok_nofacts (env : Env) (tmpl : Tmpl) (play : Play)
    (henv : EnvNoFacts env) :
    ∀ (fuel i : Nat) (handlers : List Task) (st : PBState),
      (∀ x ∈ handlers, x.notify = []) →
      (run_handlers_aux env tmpl play fuel i handlers st).2 =
        .ok handlers := by
  intro fuel
  induction fuel with
  | zero => intro i handlers st _; rfl
  | succ fuel ih =>
    intro i handlers st h
    simp only [run_handlers_aux]
    split
    next => rfl
    next handler heq =>
      by_cases hb : handler.notified_by.length > 0
      · rw [if_pos hb]
        have h1 := run_task_ok_nofacts env tmpl play handler true handlers
          { st with inventory := st.inventory.restrict_to handler.notified_by }
          henv (h handler (List.getElem?_mem heq))
        rw [h1]
        exact ih (i + 1) handlers _ h
      · rw [if_neg hb]
        exact ih (i + 1) handlers st h

theorem run_play_ok_nofacts (env : Env) (tmpl : Tmpl) (play : Play)
    (st : PBState) (henv : EnvNoFacts env)
    (h1 : ∀ t ∈ play.tasks, t.notify = [])
    (h2 : ∀ x ∈ play.handlers, x.notify = []) :
    (run_play env tmpl play st).2 = .ok () := by
  simp only [run_play, run_handlers]
  split
  next e heq =>
    rw [run_tasks_ok_nofacts env tmpl play henv play.tasks play.handlers _ h1]
      at heq
    exact Except.noConfusion heq
  next handlers1 heq =>
    rw [run_tasks_ok_nofacts env tmpl play henv play.tasks play.handlers _ h1]
      at heq
    injection heq with hh
    subst hh
    split
    next e2 heq2 =>
      rw [run_handlers_aux_ok_nofacts env tmpl play henv _ _ _ _ h2] at heq2
      exact Except.noConfusion heq2
    next u heq2 => rfl

theorem run_plays_ok_nofacts (env : Env) (tmpl : Tmpl)
    (henv : EnvNoFacts env) :
    ∀ (plays : List Play) (st : PBState), NoNotify plays →
      (run_plays env tmpl plays st).2 = .ok () := by
  intro plays
  induction plays with
  | nil => intro st _; rfl
  | cons p rest ih =>
    intro st h
    have hp := h p (by simp)
    have h1 := run_play_ok_nofacts env tmpl p { st with setup_cache := [] }
      henv hp.1 hp.2
    simp only [run_plays]
    rw [h1]
    exact ih _ (fun q hq => h q (by simp [hq]))

theorem run_ok_nofacts (env : Env) (tmpl : Tmpl) (pb : List Play)
    (st : PBState) (henv : EnvNoFacts env) (hn : NoNotify pb) :
    ∃ r, (run env tmpl pb st).2 = .ok r := by
  simp only [run]
  rw [run_plays_ok_nofacts env tmpl henv pb (st.emit .on_start) hn]
  exact ⟨_, rfl⟩

/-- C8: `run()` reports a summary for every processed host and operational
failures do not raise.  (1) Whenever `run` returns `.ok r`, the map `r`
contains `stats.summarize h` for every host `h` in `stats.processed`.
(2) Coverage of failed/unreachable hosts: the `failures` and `dark`
membership sets stay inside `processed` along any run, so failed and
unreachable hosts are among the summarized hosts.  (3) Per-host operational
failures never cause `run()` to raise: for any environment whose results
carry no `ansible_facts` and any playbook without `notify` entries (the only
raising paths are the fact-merge KeyError and the undefined-handler
configuration error, neither caused by a host failing or being
unreachable), `run` returns `.ok` — however hosts fail, time out, or go
dark. -/
theorem claimC8_run_summaries :
    (∀ (env : Env) (tmpl : Tmpl) (pb : List Play) (st0 st' : PBState)
        (r : List (Host × Summary)),
      run env tmpl pb st0 = (st', .ok r) →
      ∀ h ∈ st'.stats.processed, getA r h = some (st'.stats.summarize h)) ∧
    (∀ (env : Env) (tmpl : Tmpl) (pb : List Play) (st0 : PBState),
      GoodSet st0.stats → GoodSet (run env tmpl pb st0).1.stats) ∧
    (∀ (env : Env) (tmpl : Tmpl) (pb : List Play) (st0 : PBState),
      EnvNoFacts env → NoNotify pb →
      ∃ r, (run env tmpl pb st0).2 = .ok r) := by
  refine ⟨?_, ?_, ?_⟩
  · intro env tmpl pb st0 st' r hok h hh
    simp only [run] at hok
    split at hok
    next u heq =>
      injection hok with e1 e2
      injection e2 with e3
      rw [← e3]
      rw [← e1] at hh ⊢
      exact getA_map_self _ _ h hh
    next e heq =>
      injection hok with e1 e2
      exact Except.noConfusion e2
  · intro env tmpl pb st0 hg
    exact (run_step [[]] env tmpl pb st0 (by simp)).2.2.2.2 hg
  · intro env tmpl pb st0 henv hn
    exact run_ok_nofacts env tmpl pb st0 henv hn

/-- C8 witness: a one-task playbook whose task leaves one host failed and
one host unreachable — both hosts get their ledger summary in the returned
map, the membership sets stay covered by `processed`, and the run returns
`.ok` rather than raising. -/
theorem claimC8_witness :
    getA [("h1", (⟨0, 0, 0, 1, 0⟩ : Summary)), ("h2", ⟨0, 0, 1, 0, 0⟩)] "h1" =
      some ((run w8Env tmplId w8Pb
        (initState ["h1", "h2"])).1.stats.summarize "h1") ∧
    GoodSet (run w8Env tmplId w8Pb (initState ["h1", "h2"])).1.stats ∧
    (∃ r, (run w8Env tmplId w8Pb (initState ["h1", "h2"])).2 = .ok r) :=
  ⟨claimC8_run_summaries.1 w8Env tmplId w8Pb (initState ["h1", "h2"])
      (run w8Env tmplId w8Pb (initState ["h1", "h2"])).1
      [("h1", ⟨0, 0, 0, 1, 0⟩), ("h2", ⟨0, 0, 1, 0, 0⟩)] (by rfl) "h1"
      (by decide),
    claimC8_run_summaries.2.1 w8Env tmplId w8Pb (initState ["h1", "h2"])
      (by decide),
    claimC8_run_summaries.2.2 w8Env tmplId w8Pb (initState ["h1", "h2"])
      (by decide) (by decide)⟩

end Ansible
